import Mathlib

/-!
Verification of the tab-to-PDF reconciliation engine
(`pdfs-from-g-doc-tabs.js`).

The JavaScript source is shallowly embedded: the mutable script state
(Script Properties, Drive contents, the in-memory `state` object, the
`activeTabIds` set) is threaded explicitly through pure Lean functions,
and every externally visible Drive / UrlFetch / sleep action is recorded
as an `Op` in an operation trace.  The renderer (UrlFetchApp) is an
oracle mapping (tabId, attempt index) to a response.  MD5 hashing of a
tab body is modelled by an injective deterministic digest function;
no claim depends on properties of MD5 beyond determinism.
-/

namespace GDocTabs

/-- Rate limiting configuration from the source. -/
def DELAY_BETWEEN_EXPORTS : Nat := 2500

/-- Maximum number of retries in the export gateway. -/
def MAX_RETRIES : Nat := 3

/-- Initial backoff in milliseconds. -/
def INITIAL_BACKOFF : Nat := 1500

/-- `LOCK_TIMEOUT_MS = 9 * 60 * 1000`. -/
def LOCK_TIMEOUT_MS : Nat := 9 * 60 * 1000

/-- One tracked placement record per ever-seen tab id
(the per-id value of the persisted `doc_structure_state` JSON). -/
structure TrackedEntry where
  fileId : Option String
  folderId : Option String
  title : String
  parentName : Option String
deriving Repr, DecidableEq

/-- A Drive item (file or folder): a display name, the multi-parent set,
and the trashed flag. -/
structure DFile where
  name : String
  parents : List String
  trashed : Bool
deriving Repr, DecidableEq

/-- The Drive contents: files and folders keyed by id, plus a counter
used to mint fresh ids for newly created items. -/
structure Drive where
  files : List (String × DFile)
  folders : List (String × DFile)
  fresh : Nat
deriving Repr, DecidableEq

/-- Script Properties.  `stateJson` is the serialized state blob under
`STATE_KEY` (JSON round-tripping is modelled as the identity), `hashes`
holds the `hash_<tabId>` fingerprint keys (keyed here by the tab id),
`lock` the `script_mutex_lock` timestamp and `lastRun` the
`lastDocumentCheck` timestamp. -/
structure Props where
  lock : Option Nat
  stateJson : Option (List (String × TrackedEntry))
  hashes : List (String × String)
  lastRun : Option Nat
deriving Repr, DecidableEq

/-- Externally visible actions performed by a run, in execution order. -/
inductive Op where
  | fetchCall (tabId : String)
  | sleepMs (ms : Nat)
  | trashFile (fileId : String)
  | trashFolder (folderId : String)
  | createFile (fileId folderId name : String)
  | createFolder (folderId parentId name : String)
  | removeFromParent (itemId parentId : String)
  | addToParent (itemId parentId : String)
  | renameFileOp (fileId name : String)
  | renameFolderOp (folderId name : String)
  | saveState
  | setLock (t : Nat)
  | releaseLock
deriving Repr, DecidableEq

/-- The full mutable context of a run: the in-memory `state` object, the
`activeTabIds` set (as a list), Drive, Script Properties and the trace. -/
structure RS where
  st : List (String × TrackedEntry)
  active : List String
  drive : Drive
  props : Props
  ops : List Op
deriving Repr, DecidableEq

/-- A document tab: id, title, body text, tab type
(`docType = true` models `DocumentApp.TabType.DOCUMENT_TAB`), children. -/
inductive Tab where
  | mk (id title content : String) (docType : Bool) (children : List Tab)

def Tab.id : Tab → String
  | .mk i _ _ _ _ => i

def Tab.title : Tab → String
  | .mk _ t _ _ _ => t

def Tab.content : Tab → String
  | .mk _ _ c _ _ => c

def Tab.docType : Tab → Bool
  | .mk _ _ _ d _ => d

def Tab.children : Tab → List Tab
  | .mk _ _ _ _ c => c

/-- A renderer response to one fetch of the export URL:
an HTTP status code, or a thrown fetch exception. -/
inductive FetchResp where
  | status (code : Nat)
  | thrown
deriving Repr, DecidableEq

section KeyMaps

variable {α : Type}

/-- First-match lookup in an association list (object property read). -/
def lookupKey : List (String × α) → String → Option α
  | [], _ => none
  | (k', v) :: rest, k => if k' = k then some v else lookupKey rest k

/-- In-place update of a key (object property write); appends when the
key is absent.  Preserves key order. -/
def setKey : List (String × α) → String → α → List (String × α)
  | [], k, v => [(k, v)]
  | (k', v') :: rest, k, v =>
    if k' = k then (k, v) :: rest else (k', v') :: setKey rest k v

/-- Removal of a key (`delete obj[k]` / `deleteProperty`). -/
def eraseKey : List (String × α) → String → List (String × α)
  | [], _ => []
  | (k', v') :: rest, k =>
    if k' = k then eraseKey rest k else (k', v') :: eraseKey rest k

end KeyMaps

/-- MD5 over the tab body, modelled as an injective deterministic digest
of the content string (`getTabContentHash`). -/
def md5Hex (s : String) : String := s

/-- `getTabContentHash(tab)`: digest of the tab body text. -/
def getTabContentHash (t : Tab) : String := md5Hex t.content

/-- `pathArray.length > 0 ? pathArray[pathArray.length-1] : 'ROOT'`. -/
def curName (path : List String) : String := (path.getLast?).getD "ROOT"

/-- Mint a fresh Drive id. -/
def freshId (d : Drive) : String := "gen_" ++ toString d.fresh

/-- `folder.getFiles().hasNext() || folder.getFolders().hasNext()` is
false: the folder contains no untrashed file and no untrashed folder. -/
def folderIsEmpty (d : Drive) (folderId : String) : Bool :=
  !(d.files.any fun p => !p.2.trashed && p.2.parents.contains folderId) &&
  !(d.folders.any fun p => !p.2.trashed && p.2.parents.contains folderId)

/-- Modify a file record in place when present. -/
def modFile (d : Drive) (fileId : String) (f : DFile → DFile) : Drive :=
  match lookupKey d.files fileId with
  | none => d
  | some df => { d with files := setKey d.files fileId (f df) }

/-- Modify a folder record in place when present. -/
def modFolder (d : Drive) (folderId : String) (f : DFile → DFile) : Drive :=
  match lookupKey d.folders folderId with
  | none => d
  | some df => { d with folders := setKey d.folders folderId (f df) }

/-- `safeRenameFile`: `try { getFileById(id).setName(name) } catch(e) {}`.
The Drive call attempt is recorded; the effect occurs only when the
target still exists. -/
def safeRenameFile (rs : RS) (fileId name : String) : RS :=
  { rs with
    drive := modFile rs.drive fileId fun df => { df with name := name }
    ops := rs.ops ++ [.renameFileOp fileId name] }

/-- `safeRenameFolder`, analogous to `safeRenameFile`. -/
def safeRenameFolder (rs : RS) (folderId name : String) : RS :=
  { rs with
    drive := modFolder rs.drive folderId fun df => { df with name := name }
    ops := rs.ops ++ [.renameFolderOp folderId name] }

/-- `moveItemToFolder` for a file: inspect the current parents, remove
the item from every parent that is not the target, add it to the target
only if it was not already there. -/
def moveItemFile (rs : RS) (fileId targetFolderId : String) : RS :=
  match lookupKey rs.drive.files fileId with
  | none => rs
  | some df =>
    let removedOps := (df.parents.filter (· ≠ targetFolderId)).map
      (Op.removeFromParent fileId)
    let isAlreadyHere := df.parents.contains targetFolderId
    if isAlreadyHere then
      { rs with
        drive := modFile rs.drive fileId
          fun f => { f with parents := f.parents.filter (· = targetFolderId) }
        ops := rs.ops ++ removedOps }
    else
      { rs with
        drive := modFile rs.drive fileId
          fun f => { f with parents := [targetFolderId] }
        ops := rs.ops ++ removedOps ++ [.addToParent fileId targetFolderId] }

/-- `moveItemToFolder` for a folder. -/
def moveItemFolder (rs : RS) (folderId targetFolderId : String) : RS :=
  match lookupKey rs.drive.folders folderId with
  | none => rs
  | some df =>
    let removedOps := (df.parents.filter (· ≠ targetFolderId)).map
      (Op.removeFromParent folderId)
    let isAlreadyHere := df.parents.contains targetFolderId
    if isAlreadyHere then
      { rs with
        drive := modFolder rs.drive folderId
          fun f => { f with parents := f.parents.filter (· = targetFolderId) }
        ops := rs.ops ++ removedOps }
    else
      { rs with
        drive := modFolder rs.drive folderId
          fun f => { f with parents := [targetFolderId] }
        ops := rs.ops ++ removedOps ++ [.addToParent folderId targetFolderId] }

/-- `getOrCreateFolder(parentFolder, folderName)`: return the first
untrashed child folder with that exact name, else create one.  Returns
the folder id. -/
def getOrCreateFolder (rs : RS) (parentFolderId folderName : String) :
    RS × String :=
  match rs.drive.folders.find?
    (fun p => !p.2.trashed && p.2.name = folderName &&
      p.2.parents.contains parentFolderId) with
  | some p => (rs, p.1)
  | none =>
    let fid := freshId rs.drive
    let d := rs.drive
    ({ rs with
       drive :=
         { d with
           folders := setKey d.folders fid
             ⟨folderName, [parentFolderId], false⟩
           fresh := d.fresh + 1 }
       ops := rs.ops ++ [.createFolder fid parentFolderId folderName] },
     fid)

/-- Result of the export gateway: the created file id on success, the
Drive contents afterwards, and the gateway's own operation trace. -/
structure GWOut where
  file : Option String
  drive : Drive
  ops : List Op
deriving Repr, DecidableEq

/-- The retry loop body of `exportTabToPDF`, for attempts
`i, i+1, ..., i+fuel-1` (the source runs `i = 0 .. MAX_RETRIES`).
On 200: trash every same-named untrashed file in the destination folder,
create the PDF there and return it.  On 429: sleep
`INITIAL_BACKOFF * 2^i` and retry.  On any other status: retry with no
sleep.  On a thrown fetch error: sleep (only while `i < MAX_RETRIES`)
and retry. -/
def exportLoop (resp : Nat → FetchResp) (tabId pdfName folderId : String)
    (drive : Drive) : Nat → Nat → GWOut
  | _, 0 => ⟨none, drive, []⟩
  | i, fuel + 1 =>
    match resp i with
    | .status code =>
      if code = 200 then
        let dups := (drive.files.filter
          (fun p => !p.2.trashed && p.2.name = pdfName &&
            p.2.parents.contains folderId)).map (·.1)
        let drive1 := dups.foldl
          (fun d fid => modFile d fid fun f => { f with trashed := true }) drive
        let fid := freshId drive1
        let drive2 :=
          { drive1 with
            files := setKey drive1.files fid ⟨pdfName, [folderId], false⟩
            fresh := drive1.fresh + 1 }
        ⟨some fid, drive2,
          [Op.fetchCall tabId] ++ dups.map Op.trashFile ++
            [Op.createFile fid folderId pdfName]⟩
      else if code = 429 then
        let rest := exportLoop resp tabId pdfName folderId drive (i + 1) fuel
        ⟨rest.file, rest.drive,
          [Op.fetchCall tabId, Op.sleepMs (INITIAL_BACKOFF * 2 ^ i)] ++ rest.ops⟩
      else
        let rest := exportLoop resp tabId pdfName folderId drive (i + 1) fuel
        ⟨rest.file, rest.drive, Op.fetchCall tabId :: rest.ops⟩
    | .thrown =>
      let rest := exportLoop resp tabId pdfName folderId drive (i + 1) fuel
      if i < MAX_RETRIES then
        ⟨rest.file, rest.drive,
          [Op.fetchCall tabId, Op.sleepMs (INITIAL_BACKOFF * 2 ^ i)] ++ rest.ops⟩
      else
        ⟨rest.file, rest.drive, Op.fetchCall tabId :: rest.ops⟩

/-- `exportTabToPDF(documentId, tabId, tabTitle, folder)`; the renderer
oracle gives the response to each attempt for the given tab. -/
def exportTabToPDF (renderer : String → Nat → FetchResp)
    (tabId tabTitle folderId : String) (drive : Drive) : GWOut :=
  exportLoop (renderer tabId) tabId (tabTitle ++ ".pdf") folderId drive 0
    (MAX_RETRIES + 1)

/-- Write the current entry back into the shared `state` object
(JS mutates the object held at `state[tabId]` in place). -/
def putEntry (rs : RS) (tabId : String) (e : TrackedEntry) : RS :=
  { rs with st := setKey rs.st tabId e }

/-- The rename-sync block (`--- 2. RENAME CHECK ---`): when the stored
title is non-empty (truthy) and differs from the current tab title,
attempt to rename the tracked PDF and tracked folder in Drive, then
update the stored title and mark the state dirty.  Returns the updated
context, the updated entry, and the dirty flag contribution. -/
def renameStep (rs : RS) (tabId tabTitle : String) (e : TrackedEntry) :
    RS × TrackedEntry × Bool :=
  if e.title ≠ "" ∧ e.title ≠ tabTitle then
    let rs1 := match e.fileId with
      | some f => safeRenameFile rs f (tabTitle ++ ".pdf")
      | none => rs
    let rs2 := match e.folderId with
      | some fd => safeRenameFolder rs1 fd tabTitle
      | none => rs1
    let e' := { e with title := tabTitle }
    (putEntry rs2 tabId e', e', true)
  else (rs, e, false)

/-- The existence self-heal: if a tracked `fileId` is set, verify the
file still resolves; if not, clear the tracked `fileId` so the tab is
re-exported.  Returns the context, the entry and `fileExists`. -/
def selfHealStep (rs : RS) (tabId : String) (e : TrackedEntry) :
    RS × TrackedEntry × Bool :=
  match e.fileId with
  | none => (rs, e, false)
  | some f =>
    if (lookupKey rs.drive.files f).isSome then (rs, e, true)
    else
      let e' := { e with fileId := none }
      (putEntry rs tabId e', e', false)

/-- The export/move block (`--- 3. EXPORT CHECK ---` continuation):
if the content changed or no live file is tracked, invoke the export
gateway; on success persist the new hash, update `fileId`, `title` and
`parentName`, count the export and sleep; on failure change nothing.
Otherwise, only when the structure flag is set, re-place the tracked
file under the current destination parent.  Returns the context, the
entry, the dirty-flag contribution of this block and the export count. -/
def exportStep (renderer : String → Nat → FetchResp)
    (tabId tabTitle parentFolderId currentParentName currentHash : String)
    (contentChanged fileExists structureChanged : Bool)
    (e : TrackedEntry) (rs : RS) : RS × TrackedEntry × Bool × Nat :=
  if contentChanged || !fileExists then
    let res := exportTabToPDF renderer tabId tabTitle parentFolderId rs.drive
    let rs1 := { rs with drive := res.drive, ops := rs.ops ++ res.ops }
    match res.file with
    | some fid =>
      let rs2 := { rs1 with
        props := { rs1.props with
          hashes := setKey rs1.props.hashes tabId currentHash } }
      let e' := { e with
        fileId := some fid
        title := tabTitle
        parentName := some currentParentName }
      let rs3 := putEntry rs2 tabId e'
      let rs4 := { rs3 with ops := rs3.ops ++ [.sleepMs DELAY_BETWEEN_EXPORTS] }
      (rs4, e', true, 1)
    | none => (rs1, e, false, 0)
  else
    if structureChanged then
      match e.fileId with
      | some f =>
        if (lookupKey rs.drive.files f).isSome then
          let rs1 := moveItemFile rs f parentFolderId
          let e' := { e with parentName := some currentParentName }
          (putEntry rs1 tabId e', e', true, 0)
        else (rs, e, false, 0)
      | none => (rs, e, false, 0)
    else (rs, e, false, 0)

/-- `SCRIPT_PROPERTIES.setProperty(STATE_KEY, JSON.stringify(state))`. -/
def saveStateNow (rs : RS) : RS :=
  { rs with
    props := { rs.props with stateJson := some rs.st }
    ops := rs.ops ++ [.saveState] }

/-- The per-node pipeline of `processTabHierarchy` after the entry has
been looked up or initialized: structure flag, rename-sync, hash
comparison, existence self-heal, export/move, incremental save.
Returns the context, the current entry, the saved parent name captured
before any update, and the export count. -/
def nodeCore (renderer : String → Nat → FetchResp)
    (tabId tabTitle currentHashv currentParentName parentFolderId : String)
    (e0 : TrackedEntry) (rs2 : RS) :
    RS × TrackedEntry × Option String × Nat :=
  let savedParentName := e0.parentName
  let structureChanged :=
    e0.fileId.isSome && !(savedParentName == some currentParentName)
  let r3 := renameStep rs2 tabId tabTitle e0
  let rs3 := r3.1
  let e1 := r3.2.1
  let dirty1 := r3.2.2
  let storedHash := lookupKey rs3.props.hashes tabId
  let contentChanged := !(storedHash == some currentHashv)
  let r4 := selfHealStep rs3 tabId e1
  let rs4 := r4.1
  let e2 := r4.2.1
  let fileExists := r4.2.2
  let r5 := exportStep renderer tabId tabTitle
    parentFolderId currentParentName currentHashv contentChanged fileExists
    structureChanged e2 rs4
  let rs5 := r5.1
  let e3 := r5.2.1
  let dirty2 := r5.2.2.1
  let cnt := r5.2.2.2
  let rs6 := if dirty1 || dirty2 then saveStateNow rs5 else rs5
  (rs6, e3, savedParentName, cnt)

/-- Everything `processTabHierarchy` does for the node itself, before
the `--- 4. PROCESS CHILDREN ---` section: mark active, initialize the
entry if missing, then run the per-node pipeline. -/
def preChildren (renderer : String → Nat → FetchResp) (t : Tab)
    (parentFolderId : String) (path : List String) (rs : RS) :
    RS × TrackedEntry × Option String × Nat :=
  let tabId := t.id
  let tabTitle := t.title
  let rs1 := { rs with active := rs.active ++ [tabId] }
  let rs2 := match lookupKey rs1.st tabId with
    | some _ => rs1
    | none => putEntry rs1 tabId ⟨none, none, tabTitle, none⟩
  let e0 := (lookupKey rs2.st tabId).getD ⟨none, none, tabTitle, none⟩
  nodeCore renderer tabId tabTitle (getTabContentHash t) (curName path)
    parentFolderId e0 rs2

/-- The destination-folder logic of the children section: reuse the
tracked folder when it still resolves (moving it when the parent
changed in the Doc), else find-or-create a folder named after the tab,
record its id and save the state.  Returns the subfolder id for the
recursive calls. -/
def ensureChildFolder (e : TrackedEntry) (savedParentName : Option String)
    (currentParentName tabTitle tabId parentFolderId : String) (rs : RS) :
    RS × String :=
  let folderNeedsMove :=
    e.folderId.isSome && !(savedParentName == some currentParentName)
  match e.folderId with
  | some fd =>
    if (lookupKey rs.drive.folders fd).isSome then
      (if folderNeedsMove then moveItemFolder rs fd parentFolderId else rs, fd)
    else
      let r7 := getOrCreateFolder rs parentFolderId tabTitle
      let rs8 := putEntry r7.1 tabId { e with folderId := some r7.2 }
      (saveStateNow rs8, r7.2)
  | none =>
    let r7 := getOrCreateFolder rs parentFolderId tabTitle
    let rs8 := putEntry r7.1 tabId { e with folderId := some r7.2 }
    (saveStateNow rs8, r7.2)

mutual

/-- `processTabHierarchy(tab, parentFolder, pathArray, state, activeTabIds)`:
the recursive per-node reconciliation procedure.  Returns the updated
context and the count of successful exports in this subtree. -/
def processTab (renderer : String → Nat → FetchResp) (t : Tab)
    (parentFolderId : String) (path : List String) (rs : RS) : RS × Nat :=
  let r6 := preChildren renderer t parentFolderId path rs
  let rs6 := r6.1
  let e3 := r6.2.1
  let savedParentName := r6.2.2.1
  let cnt := r6.2.2.2
  if t.children.isEmpty then (rs6, cnt)
  else
    let r9 := ensureChildFolder e3 savedParentName (curName path)
      t.title t.id parentFolderId rs6
    let r10 :=
      processForest renderer t.children r9.2 (path ++ [t.title]) r9.1
    (r10.1, cnt + r10.2)
termination_by sizeOf t
decreasing_by
  all_goals cases t
  all_goals simp [Tab.children]

/-- The `forEach` over a list of sibling tabs, filtered to
`DOCUMENT_TAB` type, summing the export counts. -/
def processForest (renderer : String → Nat → FetchResp) (ts : List Tab)
    (parentFolderId : String) (path : List String) (rs : RS) : RS × Nat :=
  match ts with
  | [] => (rs, 0)
  | t :: rest =>
    let r1 :=
      if t.docType then processTab renderer t parentFolderId path rs
      else (rs, 0)
    let r2 := processForest renderer rest parentFolderId path r1.1
    (r2.1, r1.2 + r2.2)
termination_by sizeOf ts
decreasing_by
  all_goals simp
  omega

end

/-- The PDF-trashing part of one orphan's cleanup (`// 1. Delete PDF`). -/
def reapFile (rs : RS) (e : TrackedEntry) : RS :=
  match e.fileId with
  | none => rs
  | some f =>
    match lookupKey rs.drive.files f with
    | none => rs
    | some _ =>
      { rs with
        drive := modFile rs.drive f fun df => { df with trashed := true }
        ops := rs.ops ++ [.trashFile f] }

/-- The folder-trashing part of one orphan's cleanup
(`// 2. Delete Folder`, `// 3. Only delete if empty`). -/
def reapFolder (rs : RS) (e : TrackedEntry) : RS :=
  match e.folderId with
  | none => rs
  | some fd =>
    match lookupKey rs.drive.folders fd with
    | none => rs
    | some _ =>
      if folderIsEmpty rs.drive fd then
        { rs with
          drive := modFolder rs.drive fd fun df => { df with trashed := true }
          ops := rs.ops ++ [.trashFolder fd] }
      else rs

/-- The body of `cleanupOrphans` for one removed tab id: trash the PDF,
trash the folder only if empty, then delete the entry from the state
object and the `hash_<tabId>` property unconditionally. -/
def reapOrphan (rs : RS) (tabId : String) : RS :=
  match lookupKey rs.st tabId with
  | none => rs
  | some e =>
    let rs1 := reapFile rs e
    let rs2 := reapFolder rs1 e
    { rs2 with
      st := eraseKey rs2.st tabId
      props := { rs2.props with hashes := eraseKey rs2.props.hashes tabId } }

/-- `cleanupOrphans(state, activeTabIds)`: iterate over the ids known to
the state (snapshot taken before the loop) and reap every id that is
not in the active set. -/
def cleanupOrphans (rs : RS) : RS :=
  (rs.st.map (·.1)).foldl
    (fun acc tabId =>
      if acc.active.contains tabId then acc else reapOrphan acc tabId) rs

/-- The body of the run between lock acquisition and lock release:
load the state, traverse the hierarchy, clean up orphans, save the
final state and the last-check timestamp. -/
def runBody (renderer : String → Nat → FetchResp) (now : Nat)
    (tabs : List Tab) (rootFolderId : String) (rs : RS) : RS :=
  let rs0 := { rs with st := rs.props.stateJson.getD [], active := [] }
  let rs1 := (processForest renderer tabs rootFolderId [] rs0).1
  let rs2 := cleanupOrphans rs1
  { rs2 with
    props := { rs2.props with stateJson := some rs2.st, lastRun := some now }
    ops := rs2.ops ++ [.saveState] }

/-- The non-locked path of `exportUpdatedTabsToPDF`: set the lock to the
current timestamp, run the body, and release the lock in the `finally`
block. -/
def proceedRun (renderer : String → Nat → FetchResp) (now : Nat)
    (tabs : List Tab) (rootFolderId : String) (drive : Drive)
    (props : Props) : RS :=
  let rs0 : RS :=
    { st := []
      active := []
      drive := drive
      props := { props with lock := some now }
      ops := [.setLock now] }
  let rs1 := runBody renderer now tabs rootFolderId rs0
  { rs1 with
    props := { rs1.props with lock := none }
    ops := rs1.ops ++ [.releaseLock] }

/-- `exportUpdatedTabsToPDF()`: the mutex gate followed by the run.
When a stored lock timestamp younger than `LOCK_TIMEOUT_MS` exists the
invocation returns immediately, touching nothing; otherwise (no lock or
a stale one) it proceeds, overwriting the lock with its own timestamp. -/
def exportUpdatedTabsToPDF (renderer : String → Nat → FetchResp) (now : Nat)
    (tabs : List Tab) (rootFolderId : String) (drive : Drive)
    (props : Props) : RS :=
  let locked := match props.lock with
    | some lockTime => decide (now - lockTime < LOCK_TIMEOUT_MS)
    | none => false
  if locked then ⟨[], [], drive, props, []⟩
  else proceedRun renderer now tabs rootFolderId drive props

/-- The empty Script Properties store, as left by
`SCRIPT_PROPERTIES.deleteAllProperties()`. -/
def emptyProps : Props := ⟨none, none, [], none⟩

/-- `forceExportAllTabs()`: delete every persisted property (state,
hashes, last-check timestamp and the lock), then run
`exportUpdatedTabsToPDF`. -/
def forceExportAllTabs (renderer : String → Nat → FetchResp) (now : Nat)
    (tabs : List Tab) (rootFolderId : String) (drive : Drive)
    (_props : Props) : RS :=
  exportUpdatedTabsToPDF renderer now tabs rootFolderId drive emptyProps

mutual

/-- All tab ids occurring in a subtree. -/
def tabIds : Tab → List String
  | .mk i _ _ _ ch => i :: forestIds ch

/-- All tab ids occurring in a forest. -/
def forestIds : List Tab → List String
  | [] => []
  | t :: ts => tabIds t ++ forestIds ts

end

mutual

/-- The ids added to `activeTabIds` when a subtree is traversed
(only `DOCUMENT_TAB` children are recursed into). -/
def visitedTab : Tab → List String
  | .mk i _ _ _ ch => i :: visitedForest ch

/-- The ids added to `activeTabIds` when a forest is traversed. -/
def visitedForest : List Tab → List String
  | [] => []
  | t :: ts => (if t.docType then visitedTab t else []) ++ visitedForest ts

end

mutual

/-- Every tab in the subtree has the recognized `DOCUMENT_TAB` type. -/
def allDocTab : Tab → Prop
  | .mk _ _ _ d ch => d = true ∧ allDocForest ch

/-- Every tab in the forest has the recognized `DOCUMENT_TAB` type. -/
def allDocForest : List Tab → Prop
  | [] => True
  | t :: ts => allDocTab t ∧ allDocForest ts

end

/-- A single node is fully reconciled against the context: its entry
exists, the stored title is synced (or empty, which the rename check
treats as falsy and never resyncs), the stored parent name matches the
logical parent title, a tracked file id resolves in Drive, the stored
fingerprint matches the current content, and — when the node has
children — a tracked folder id resolves in Drive. -/
def nodeSynced (st : List (String × TrackedEntry))
    (hashes : List (String × String)) (d : Drive) (t : Tab) (cur : String) :
    Prop :=
  ∃ e, lookupKey st t.id = some e ∧
    (e.title = "" ∨ e.title = t.title) ∧
    e.parentName = some cur ∧
    (∃ f, e.fileId = some f ∧ (lookupKey d.files f).isSome) ∧
    lookupKey hashes t.id = some (getTabContentHash t) ∧
    (t.children ≠ [] →
      ∃ fd, e.folderId = some fd ∧ (lookupKey d.folders fd).isSome)

mutual

/-- A subtree is fully reconciled: the node and, recursively, all its
children (whose logical parent title is this node's title). -/
def treeSynced (st : List (String × TrackedEntry))
    (hashes : List (String × String)) (d : Drive) : Tab → String → Prop
  | .mk i ti c dt ch, cur =>
    nodeSynced st hashes d (.mk i ti c dt ch) cur ∧
      forestSynced st hashes d ch ti

/-- A forest is fully reconciled below a common logical parent title. -/
def forestSynced (st : List (String × TrackedEntry))
    (hashes : List (String × String)) (d : Drive) : List Tab → String → Prop
  | [], _ => True
  | t :: ts, cur =>
    treeSynced st hashes d t cur ∧ forestSynced st hashes d ts cur

end

/-- Number of renderer fetches recorded in a trace. -/
def fetchCount (ops : List Op) : Nat :=
  ops.countP fun op => match op with
    | .fetchCall _ => true
    | _ => false

/-- The sleep durations recorded in a trace, in order. -/
def sleepTimes (ops : List Op) : List Nat :=
  ops.filterMap fun op => match op with
    | .sleepMs ms => some ms
    | _ => none

/-- Gateway trace for a renderer that always rate-limits, starting at
attempt `i` with `fuel` attempts left. -/
def rateOps (tabId : String) : Nat → Nat → List Op
  | _, 0 => []
  | i, fuel + 1 =>
    [Op.fetchCall tabId, Op.sleepMs (INITIAL_BACKOFF * 2 ^ i)] ++
      rateOps tabId (i + 1) fuel

/-- Gateway trace for a renderer whose fetches always throw. -/
def throwOps (tabId : String) : Nat → Nat → List Op
  | _, 0 => []
  | i, fuel + 1 =>
    (if i < MAX_RETRIES then
      [Op.fetchCall tabId, Op.sleepMs (INITIAL_BACKOFF * 2 ^ i)]
     else [Op.fetchCall tabId]) ++ throwOps tabId (i + 1) fuel

/-- Operations that invoke the Exporter Gateway or materialize its
artifact: a renderer fetch, or the creation of an exported file. -/
def isExportOp : Op → Bool
  | .fetchCall _ => true
  | .createFile _ _ _ => true
  | _ => false

/-- Placement operations against the destination hierarchy: folder
creation, add-to-parent and remove-from-parent (a move is a
remove/add combination). -/
def isPlacementOp : Op → Bool
  | .createFolder _ _ _ => true
  | .removeFromParent _ _ => true
  | .addToParent _ _ => true
  | _ => false

/-- Rename attempts against the destination hierarchy. -/
def isRenameOp : Op → Bool
  | .renameFileOp _ _ => true
  | .renameFolderOp _ _ => true
  | _ => false

/-- A renderer that succeeds on every fetch. -/
def renderer200 (renderer : String → Nat → FetchResp) : Prop :=
  ∀ tabId n, renderer tabId n = .status 200

/-- Drive ids are never deleted, only created or mutated in place:
`d'` resolves every file and folder id that `d` resolves. -/
def driveMono (d d' : Drive) : Prop :=
  (∀ f, (lookupKey d.files f).isSome → (lookupKey d'.files f).isSome) ∧
  (∀ fd, (lookupKey d.folders fd).isSome → (lookupKey d'.folders fd).isSome)

/-- The trash operation `op` is attributable to an orphan: some state
entry at a key outside the active set tracks the trashed id.  Any
other operation is not attributable. -/
def orphanTrash (st : List (String × TrackedEntry)) (act : List String) :
    Op → Prop
  | .trashFile f =>
    ∃ j e, lookupKey st j = some e ∧ j ∉ act ∧ e.fileId = some f
  | .trashFolder fd =>
    ∃ j e, lookupKey st j = some e ∧ j ∉ act ∧ e.folderId = some fd
  | _ => False

/-- What one traversal step guarantees about everything outside the
ids in `ids`: state entries and fingerprints at other keys are
untouched, Drive ids keep resolving, the lock is untouched and the
trace only grows. -/
def frameT (ids : List String) (rs rs' : RS) : Prop :=
  (∀ k, k ∉ ids → lookupKey rs'.st k = lookupKey rs.st k) ∧
  (∀ k, k ∉ ids → lookupKey rs'.props.hashes k = lookupKey rs.props.hashes k) ∧
  driveMono rs.drive rs'.drive ∧
  rs'.props.lock = rs.props.lock ∧
  (∃ new, rs'.ops = rs.ops ++ new)

/-- A renderer that always succeeds (HTTP 200 on every fetch). -/
def rendererOK : String → Nat → FetchResp := fun _ _ => .status 200

/-- Concrete scenario: a tracked node id `x` that has disappeared from
the source, whose tracked folder `d` still contains an untracked file
`f1`.  Used to examine the orphan reaper on a non-empty folder. -/
def orphanWorld : RS :=
  { st := [("x", ⟨none, some "d", "X", some "ROOT"⟩)]
    active := []
    drive :=
      { files := [("f1", ⟨"leftover.pdf", ["d"], false⟩)]
        folders := [("d", ⟨"X", ["root"], false⟩)]
        fresh := 0 }
    props := ⟨none, none, [("x", "h")], none⟩
    ops := [] }

/-- Concrete scenario: a tab renamed from `Old` to `New` whose tracked
folder id `dGone` has vanished from Drive (the folder rename fails and
is swallowed), while its tracked PDF `f` still resolves and the content
is unchanged. -/
def renameTab : Tab := .mk "x" "New" "body" true [.mk "y" "Y" "ybody" true []]

/-- The world in which `renameTab` is processed. -/
def renameWorld : RS :=
  { st := [("x", ⟨some "f", some "dGone", "Old", some "ROOT"⟩),
           ("y", ⟨some "fy", none, "Y", some "New"⟩)]
    active := []
    drive :=
      { files := [("f", ⟨"Old.pdf", ["root"], false⟩),
                  ("fy", ⟨"Y.pdf", ["dNew"], false⟩)]
        folders := []
        fresh := 0 }
    props := ⟨none, none, [("x", md5Hex "body"), ("y", md5Hex "ybody")], none⟩
    ops := [] }

/-- Concrete scenario: node `n` with unchanged content whose stored
parent name `P` matches the title of its current logical parent, while
its artifact `f` and folder `d` physically live under a different Drive
folder `elsewhere`; the node's only child is not of the recognized tab
type. -/
def sameTitleTab : Tab := .mk "n" "N" "nbody" true [.mk "k" "K" "kbody" false []]

/-- The world in which `sameTitleTab` is processed. -/
def sameTitleWorld : RS :=
  { st := [("n", ⟨some "f", some "d", "N", some "P"⟩)]
    active := []
    drive :=
      { files := [("f", ⟨"N.pdf", ["elsewhere"], false⟩)]
        folders := [("d", ⟨"N", ["elsewhere"], false⟩)]
        fresh := 0 }
    props := ⟨none, none, [("n", md5Hex "nbody")], none⟩
    ops := [] }

/-! ### Association-map lemmas -/

section KeyMapLemmas

variable {α : Type}

theorem lookupKey_setKey_self (m : List (String × α)) (k : String) (v : α) :
    lookupKey (setKey m k v) k = some v := by
  induction m with
  | nil => simp [setKey, lookupKey]
  | cons p rest ih =>
    obtain ⟨k', v'⟩ := p
    by_cases h : k' = k
    · simp [setKey, h, lookupKey]
    · simp [setKey, h, lookupKey, ih]

theorem lookupKey_setKey_of_ne (m : List (String × α)) {k k' : String}
    (v : α) (h : k ≠ k') :
    lookupKey (setKey m k v) k' = lookupKey m k' := by
  induction m with
  | nil => simp [setKey, lookupKey, h]
  | cons p rest ih =>
    obtain ⟨k'', v''⟩ := p
    by_cases h2 : k'' = k
    · subst h2
      simp [setKey, lookupKey, h]
    · simp [setKey, h2, lookupKey, ih]

theorem lookupKey_setKey_isSome (m : List (String × α)) {k' : String}
    (k : String) (v : α) (h : (lookupKey m k').isSome) :
    (lookupKey (setKey m k v) k').isSome := by
  by_cases hk : k = k'
  · subst hk
    simp [lookupKey_setKey_self]
  · rwa [lookupKey_setKey_of_ne m v hk]

theorem lookupKey_eraseKey_self (m : List (String × α)) (k : String) :
    lookupKey (eraseKey m k) k = none := by
  induction m with
  | nil => simp [eraseKey, lookupKey]
  | cons p rest ih =>
    obtain ⟨k', v'⟩ := p
    by_cases h : k' = k
    · simp [eraseKey, h, ih]
    · simp [eraseKey, h, lookupKey, ih]

theorem lookupKey_eraseKey_of_ne (m : List (String × α)) {k k' : String}
    (h : k ≠ k') :
    lookupKey (eraseKey m k) k' = lookupKey m k' := by
  induction m with
  | nil => simp [eraseKey]
  | cons p rest ih =>
    obtain ⟨k'', v''⟩ := p
    by_cases h2 : k'' = k
    · subst h2
      simp [eraseKey, lookupKey, h, ih]
    · simp [eraseKey, h2, lookupKey, ih]

theorem lookupKey_isSome_of_mem_keys (m : List (String × α)) {k : String}
    (h : k ∈ m.map Prod.fst) : (lookupKey m k).isSome := by
  induction m with
  | nil => simp at h
  | cons p rest ih =>
    obtain ⟨k', v'⟩ := p
    by_cases h2 : k' = k
    · simp [lookupKey, h2]
    · rw [List.map_cons] at h
      rcases List.mem_cons.mp h with h | h
      · exact absurd h.symm h2
      · simp only [lookupKey, h2, if_false]
        exact ih h

theorem mem_keys_of_lookupKey_isSome (m : List (String × α)) {k : String}
    (h : (lookupKey m k).isSome) : k ∈ m.map Prod.fst := by
  induction m with
  | nil => simp [lookupKey] at h
  | cons p rest ih =>
    obtain ⟨k', v'⟩ := p
    by_cases h2 : k' = k
    · simp [h2]
    · simp [lookupKey, h2] at h
      simp [ih h]

end KeyMapLemmas

/-! ### Export gateway lemmas -/

theorem exportLoop_rate (resp : Nat → FetchResp)
    (tabId pdfName folderId : String) (drive : Drive)
    (h : ∀ n, resp n = .status 429) :
    ∀ fuel i, exportLoop resp tabId pdfName folderId drive i fuel =
      ⟨none, drive, rateOps tabId i fuel⟩ := by
  intro fuel
  induction fuel with
  | zero => intro i; simp [exportLoop, rateOps]
  | succ n ih =>
    intro i
    simp [exportLoop, h i, rateOps, ih (i + 1)]

theorem exportLoop_other (resp : Nat → FetchResp)
    (tabId pdfName folderId : String) (drive : Drive)
    (h : ∀ n, ∃ c, resp n = .status c ∧ c ≠ 200 ∧ c ≠ 429) :
    ∀ fuel i, exportLoop resp tabId pdfName folderId drive i fuel =
      ⟨none, drive, List.replicate fuel (Op.fetchCall tabId)⟩ := by
  intro fuel
  induction fuel with
  | zero => intro i; simp [exportLoop]
  | succ n ih =>
    intro i
    obtain ⟨c, hc, h200, h429⟩ := h i
    simp [exportLoop, hc, h200, h429, ih (i + 1), List.replicate_succ]

theorem exportLoop_thrown (resp : Nat → FetchResp)
    (tabId pdfName folderId : String) (drive : Drive)
    (h : ∀ n, resp n = .thrown) :
    ∀ fuel i, exportLoop resp tabId pdfName folderId drive i fuel =
      ⟨none, drive, throwOps tabId i fuel⟩ := by
  intro fuel
  induction fuel with
  | zero => intro i; simp [exportLoop, throwOps]
  | succ n ih =>
    intro i
    by_cases hi : i < MAX_RETRIES
    · simp [exportLoop, h i, throwOps, hi, ih (i + 1)]
    · simp [exportLoop, h i, throwOps, hi, ih (i + 1)]

/-- A failed gateway call (null result) leaves Drive exactly as it was:
the gateway mutates Drive only on the 200 path. -/
theorem exportLoop_none_drive (resp : Nat → FetchResp)
    (tabId pdfName folderId : String) (drive : Drive) :
    ∀ fuel i,
      (exportLoop resp tabId pdfName folderId drive i fuel).file = none →
      (exportLoop resp tabId pdfName folderId drive i fuel).drive = drive := by
  intro fuel
  induction fuel with
  | zero => intro i _; simp [exportLoop]
  | succ n ih =>
    intro i hnone
    match hr : resp i with
    | .status c =>
      by_cases h200 : c = 200
      · subst h200
        simp [exportLoop, hr] at hnone
      · by_cases h429 : c = 429
        · subst h429
          simp only [exportLoop, hr, if_neg h200, if_pos rfl] at hnone ⊢
          exact ih (i + 1) hnone
        · simp only [exportLoop, hr, if_neg h200, if_neg h429] at hnone ⊢
          exact ih (i + 1) hnone
    | .thrown =>
      by_cases hi : i < MAX_RETRIES
      · simp only [exportLoop, hr, if_pos hi] at hnone ⊢
        exact ih (i + 1) hnone
      · simp only [exportLoop, hr, if_neg hi] at hnone ⊢
        exact ih (i + 1) hnone

/-- When no attempt within the retry budget answers 200, the gateway
communicates the absence of an artifact as a null result (it cannot
escalate: every non-200 outcome either retries or falls out of the
loop into `return null`). -/
theorem exportLoop_no200_none (resp : Nat → FetchResp)
    (tabId pdfName folderId : String) (drive : Drive) :
    ∀ fuel i, (∀ k, k < fuel → resp (i + k) ≠ .status 200) →
      (exportLoop resp tabId pdfName folderId drive i fuel).file = none := by
  intro fuel
  induction fuel with
  | zero => intro i _; simp [exportLoop]
  | succ n ih =>
    intro i h
    have hnext : ∀ k, k < n → resp (i + 1 + k) ≠ .status 200 := by
      intro k hk
      have := h (k + 1) (by omega)
      simpa [Nat.add_assoc, Nat.add_comm 1 k] using this
    match hr : resp i with
    | .status c =>
      have hc200 : c ≠ 200 := by
        intro hc
        subst hc
        exact h 0 (by omega) (by simpa using hr)
      by_cases h429 : c = 429
      · subst h429
        simp only [exportLoop, hr, if_neg hc200, if_pos rfl]
        exact ih (i + 1) hnext
      · simp only [exportLoop, hr, if_neg hc200, if_neg h429]
        exact ih (i + 1) hnext
    | .thrown =>
      by_cases hi : i < MAX_RETRIES
      · simp only [exportLoop, hr, if_pos hi]
        exact ih (i + 1) hnext
      · simp only [exportLoop, hr, if_neg hi]
        exact ih (i + 1) hnext

/-! ### Drive monotonicity and frame infrastructure -/

theorem driveMono_refl (d : Drive) : driveMono d d :=
  ⟨fun _ h => h, fun _ h => h⟩

theorem driveMono_trans {d1 d2 d3 : Drive} (h1 : driveMono d1 d2)
    (h2 : driveMono d2 d3) : driveMono d1 d3 :=
  ⟨fun f hf => h2.1 f (h1.1 f hf), fun fd hfd => h2.2 fd (h1.2 fd hfd)⟩

theorem driveMono_modFile (d : Drive) (fileId : String) (g : DFile → DFile) :
    driveMono d (modFile d fileId g) := by
  unfold modFile
  match h : lookupKey d.files fileId with
  | none => exact driveMono_refl d
  | some df =>
    refine ⟨fun f hf => ?_, fun fd hfd => hfd⟩
    exact lookupKey_setKey_isSome _ _ _ hf

theorem driveMono_modFolder (d : Drive) (folderId : String)
    (g : DFile → DFile) : driveMono d (modFolder d folderId g) := by
  unfold modFolder
  match h : lookupKey d.folders folderId with
  | none => exact driveMono_refl d
  | some df =>
    refine ⟨fun f hf => hf, fun fd hfd => ?_⟩
    exact lookupKey_setKey_isSome _ _ _ hfd

theorem modFile_folders (d : Drive) (fileId : String) (g : DFile → DFile) :
    (modFile d fileId g).folders = d.folders := by
  unfold modFile
  match h : lookupKey d.files fileId with
  | none => rfl
  | some df => rfl

theorem modFolder_files (d : Drive) (folderId : String) (g : DFile → DFile) :
    (modFolder d folderId g).files = d.files := by
  unfold modFolder
  match h : lookupKey d.folders folderId with
  | none => rfl
  | some df => rfl

theorem frameT_refl (ids : List String) (rs : RS) : frameT ids rs rs :=
  ⟨fun _ _ => rfl, fun _ _ => rfl, driveMono_refl _, rfl, ⟨[], by simp⟩⟩

theorem frameT_trans {ids : List String} {rs1 rs2 rs3 : RS}
    (h1 : frameT ids rs1 rs2) (h2 : frameT ids rs2 rs3) :
    frameT ids rs1 rs3 := by
  obtain ⟨hst1, hh1, hd1, hl1, new1, hops1⟩ := h1
  obtain ⟨hst2, hh2, hd2, hl2, new2, hops2⟩ := h2
  refine ⟨fun k hk => (hst2 k hk).trans (hst1 k hk),
    fun k hk => (hh2 k hk).trans (hh1 k hk),
    driveMono_trans hd1 hd2, hl2.trans hl1, new1 ++ new2, ?_⟩
  rw [hops2, hops1, List.append_assoc]

theorem frameT_mono {ids ids' : List String} {rs rs' : RS}
    (hsub : ∀ k, k ∈ ids → k ∈ ids') (h : frameT ids rs rs') :
    frameT ids' rs rs' := by
  obtain ⟨hst, hh, hd, hl, new, hops⟩ := h
  exact ⟨fun k hk => hst k (fun hm => hk (hsub k hm)),
    fun k hk => hh k (fun hm => hk (hsub k hm)), hd, hl, new, hops⟩

/-! ### Helper step lemmas -/

theorem safeRenameFile_spec (rs : RS) (f n : String) :
    (safeRenameFile rs f n).st = rs.st ∧
    (safeRenameFile rs f n).active = rs.active ∧
    (safeRenameFile rs f n).props = rs.props ∧
    driveMono rs.drive (safeRenameFile rs f n).drive ∧
    (safeRenameFile rs f n).ops = rs.ops ++ [.renameFileOp f n] := by
  refine ⟨rfl, rfl, rfl, ?_, rfl⟩
  exact driveMono_modFile _ _ _

theorem safeRenameFolder_spec (rs : RS) (f n : String) :
    (safeRenameFolder rs f n).st = rs.st ∧
    (safeRenameFolder rs f n).active = rs.active ∧
    (safeRenameFolder rs f n).props = rs.props ∧
    driveMono rs.drive (safeRenameFolder rs f n).drive ∧
    (safeRenameFolder rs f n).ops = rs.ops ++ [.renameFolderOp f n] := by
  refine ⟨rfl, rfl, rfl, ?_, rfl⟩
  exact driveMono_modFolder _ _ _

theorem moveItemFile_spec (rs : RS) (f target : String) :
    (moveItemFile rs f target).st = rs.st ∧
    (moveItemFile rs f target).active = rs.active ∧
    (moveItemFile rs f target).props = rs.props ∧
    driveMono rs.drive (moveItemFile rs f target).drive ∧
    (∃ new, (moveItemFile rs f target).ops = rs.ops ++ new ∧
      ∀ op ∈ new, isPlacementOp op = true) := by
  unfold moveItemFile
  split
  · exact ⟨rfl, rfl, rfl, driveMono_refl _, [], by simp, by simp⟩
  · rename_i df h
    dsimp only
    by_cases hin : df.parents.contains target = true
    · rw [if_pos hin]
      refine ⟨rfl, rfl, rfl, driveMono_modFile _ _ _, _, rfl, ?_⟩
      intro op hop
      simp only [List.mem_map] at hop
      obtain ⟨p, _, rfl⟩ := hop
      rfl
    · rw [if_neg hin]
      refine ⟨rfl, rfl, rfl, driveMono_modFile _ _ _, _, by rw [List.append_assoc], ?_⟩
      intro op hop
      simp only [List.mem_append, List.mem_map, List.mem_singleton] at hop
      rcases hop with ⟨p, _, rfl⟩ | rfl
      · rfl
      · rfl

theorem moveItemFolder_spec (rs : RS) (f target : String) :
    (moveItemFolder rs f target).st = rs.st ∧
    (moveItemFolder rs f target).active = rs.active ∧
    (moveItemFolder rs f target).props = rs.props ∧
    driveMono rs.drive (moveItemFolder rs f target).drive ∧
    (∃ new, (moveItemFolder rs f target).ops = rs.ops ++ new ∧
      ∀ op ∈ new, isPlacementOp op = true) := by
  unfold moveItemFolder
  split
  · exact ⟨rfl, rfl, rfl, driveMono_refl _, [], by simp, by simp⟩
  · rename_i df h
    dsimp only
    by_cases hin : df.parents.contains target = true
    · rw [if_pos hin]
      refine ⟨rfl, rfl, rfl, driveMono_modFolder _ _ _, _, rfl, ?_⟩
      intro op hop
      simp only [List.mem_map] at hop
      obtain ⟨p, _, rfl⟩ := hop
      rfl
    · rw [if_neg hin]
      refine ⟨rfl, rfl, rfl, driveMono_modFolder _ _ _, _, by rw [List.append_assoc], ?_⟩
      intro op hop
      simp only [List.mem_append, List.mem_map, List.mem_singleton] at hop
      rcases hop with ⟨p, _, rfl⟩ | rfl
      · rfl
      · rfl

theorem getOrCreateFolder_spec (rs : RS) (parentFolderId folderName : String) :
    ((getOrCreateFolder rs parentFolderId folderName).1.st = rs.st) ∧
    ((getOrCreateFolder rs parentFolderId folderName).1.active = rs.active) ∧
    ((getOrCreateFolder rs parentFolderId folderName).1.props = rs.props) ∧
    driveMono rs.drive (getOrCreateFolder rs parentFolderId folderName).1.drive ∧
    (∃ new, (getOrCreateFolder rs parentFolderId folderName).1.ops =
      rs.ops ++ new) ∧
    (lookupKey (getOrCreateFolder rs parentFolderId folderName).1.drive.folders
      (getOrCreateFolder rs parentFolderId folderName).2).isSome := by
  unfold getOrCreateFolder
  split
  · rename_i p h
    refine ⟨rfl, rfl, rfl, driveMono_refl _, ⟨[], by simp⟩, ?_⟩
    have hmem := List.mem_of_find?_eq_some h
    exact lookupKey_isSome_of_mem_keys _ (List.mem_map_of_mem Prod.fst hmem)
  · refine ⟨rfl, rfl, rfl, ⟨fun f hf => hf, fun fd hfd => ?_⟩,
      ⟨[.createFolder (freshId rs.drive) parentFolderId folderName], by simp⟩,
      ?_⟩
    · exact lookupKey_setKey_isSome _ _ _ hfd
    · simp [lookupKey_setKey_self]

theorem putEntry_spec (rs : RS) (tabId : String) (e : TrackedEntry) :
    lookupKey (putEntry rs tabId e).st tabId = some e ∧
    (∀ k, k ≠ tabId →
      lookupKey (putEntry rs tabId e).st k = lookupKey rs.st k) ∧
    (putEntry rs tabId e).active = rs.active ∧
    (putEntry rs tabId e).drive = rs.drive ∧
    (putEntry rs tabId e).props = rs.props ∧
    (putEntry rs tabId e).ops = rs.ops := by
  refine ⟨lookupKey_setKey_self _ _ _, fun k hk => ?_, rfl, rfl, rfl, rfl⟩
  exact lookupKey_setKey_of_ne _ _ (fun hh => hk hh.symm)

theorem saveStateNow_spec (rs : RS) :
    (saveStateNow rs).st = rs.st ∧
    (saveStateNow rs).active = rs.active ∧
    (saveStateNow rs).drive = rs.drive ∧
    (saveStateNow rs).props.hashes = rs.props.hashes ∧
    (saveStateNow rs).props.lock = rs.props.lock ∧
    (saveStateNow rs).props.stateJson = some rs.st ∧
    (saveStateNow rs).ops = rs.ops ++ [.saveState] :=
  ⟨rfl, rfl, rfl, rfl, rfl, rfl, rfl⟩

/-! ### Rename and self-heal step lemmas -/

theorem renameStep_context (rs : RS) (tabId tabTitle : String)
    (e : TrackedEntry) :
    (∀ k, k ≠ tabId →
      lookupKey (renameStep rs tabId tabTitle e).1.st k = lookupKey rs.st k) ∧
    (renameStep rs tabId tabTitle e).1.active = rs.active ∧
    (renameStep rs tabId tabTitle e).1.props = rs.props ∧
    driveMono rs.drive (renameStep rs tabId tabTitle e).1.drive ∧
    (∃ new, (renameStep rs tabId tabTitle e).1.ops = rs.ops ++ new ∧
      ∀ op ∈ new, isRenameOp op = true) := by
  unfold renameStep
  by_cases hc : e.title ≠ "" ∧ e.title ≠ tabTitle
  · rw [if_pos hc]
    cases hf : e.fileId with
    | none =>
      cases hd : e.folderId with
      | none =>
        exact ⟨fun k hk => lookupKey_setKey_of_ne _ _ (fun hh => hk hh.symm),
          rfl, rfl, driveMono_refl _, [], by simp [putEntry], by simp⟩
      | some fd =>
        refine ⟨fun k hk => ?_, rfl, rfl, driveMono_modFolder _ _ _,
          [.renameFolderOp fd tabTitle], by simp [putEntry, safeRenameFolder],
          by simp [isRenameOp]⟩
        simp only [putEntry, safeRenameFolder]
        exact lookupKey_setKey_of_ne _ _ (fun hh => hk hh.symm)
    | some f =>
      cases hd : e.folderId with
      | none =>
        refine ⟨fun k hk => ?_, rfl, rfl, driveMono_modFile _ _ _,
          [.renameFileOp f (tabTitle ++ ".pdf")],
          by simp [putEntry, safeRenameFile], by simp [isRenameOp]⟩
        simp only [putEntry, safeRenameFile]
        exact lookupKey_setKey_of_ne _ _ (fun hh => hk hh.symm)
      | some fd =>
        refine ⟨fun k hk => ?_, rfl, rfl,
          driveMono_trans (driveMono_modFile _ _ _) (driveMono_modFolder _ _ _),
          [.renameFileOp f (tabTitle ++ ".pdf"), .renameFolderOp fd tabTitle],
          by simp [putEntry, safeRenameFile, safeRenameFolder],
          by simp [isRenameOp]⟩
        simp only [putEntry, safeRenameFile, safeRenameFolder]
        exact lookupKey_setKey_of_ne _ _ (fun hh => hk hh.symm)
  · rw [if_neg hc]
    exact ⟨fun _ _ => rfl, rfl, rfl, driveMono_refl _, [], by simp, by simp⟩

theorem renameStep_entry (rs : RS) (tabId tabTitle : String)
    (e : TrackedEntry) (h : lookupKey rs.st tabId = some e) :
    lookupKey (renameStep rs tabId tabTitle e).1.st tabId =
      some (renameStep rs tabId tabTitle e).2.1 := by
  unfold renameStep
  by_cases hc : e.title ≠ "" ∧ e.title ≠ tabTitle
  · rw [if_pos hc]
    cases hf : e.fileId with
    | none =>
      cases hd : e.folderId with
      | none => exact lookupKey_setKey_self _ _ _
      | some fd => exact lookupKey_setKey_self _ _ _
    | some f =>
      cases hd : e.folderId with
      | none => exact lookupKey_setKey_self _ _ _
      | some fd => exact lookupKey_setKey_self _ _ _
  · rw [if_neg hc]
    exact h

theorem renameStep_fields (rs : RS) (tabId tabTitle : String)
    (e : TrackedEntry) :
    (renameStep rs tabId tabTitle e).2.1.fileId = e.fileId ∧
    (renameStep rs tabId tabTitle e).2.1.folderId = e.folderId ∧
    (renameStep rs tabId tabTitle e).2.1.parentName = e.parentName ∧
    ((renameStep rs tabId tabTitle e).2.1.title = "" ∨
      (renameStep rs tabId tabTitle e).2.1.title = tabTitle) := by
  unfold renameStep
  by_cases hc : e.title ≠ "" ∧ e.title ≠ tabTitle
  · rw [if_pos hc]
    cases hf : e.fileId with
    | none =>
      cases hd : e.folderId with
      | none => exact ⟨rfl, rfl, rfl, Or.inr rfl⟩
      | some fd => exact ⟨rfl, rfl, rfl, Or.inr rfl⟩
    | some f =>
      cases hd : e.folderId with
      | none => exact ⟨rfl, rfl, rfl, Or.inr rfl⟩
      | some fd => exact ⟨rfl, rfl, rfl, Or.inr rfl⟩
  · rw [if_neg hc]
    refine ⟨rfl, rfl, rfl, ?_⟩
    by_cases h0 : e.title = ""
    · exact Or.inl h0
    · by_cases h1 : e.title = tabTitle
      · exact Or.inr h1
      · exact absurd ⟨h0, h1⟩ hc

theorem renameStep_silent (rs : RS) (tabId tabTitle : String)
    (e : TrackedEntry) (h : e.title = "" ∨ e.title = tabTitle) :
    renameStep rs tabId tabTitle e = (rs, e, false) := by
  unfold renameStep
  rw [if_neg]
  intro hc
  rcases h with h | h
  · exact hc.1 h
  · exact hc.2 h

theorem selfHealStep_spec (rs : RS) (tabId : String) (e : TrackedEntry) :
    (selfHealStep rs tabId e).1.active = rs.active ∧
    (selfHealStep rs tabId e).1.drive = rs.drive ∧
    (selfHealStep rs tabId e).1.props = rs.props ∧
    (selfHealStep rs tabId e).1.ops = rs.ops ∧
    (∀ k, k ≠ tabId →
      lookupKey (selfHealStep rs tabId e).1.st k = lookupKey rs.st k) ∧
    (lookupKey rs.st tabId = some e →
      lookupKey (selfHealStep rs tabId e).1.st tabId =
        some (selfHealStep rs tabId e).2.1) ∧
    (selfHealStep rs tabId e).2.1.folderId = e.folderId ∧
    (selfHealStep rs tabId e).2.1.title = e.title ∧
    (selfHealStep rs tabId e).2.1.parentName = e.parentName ∧
    ((selfHealStep rs tabId e).2.2 = true →
      (selfHealStep rs tabId e).2.1 = e ∧
      ∃ f, e.fileId = some f ∧ (lookupKey rs.drive.files f).isSome) ∧
    ((selfHealStep rs tabId e).2.2 = false →
      (selfHealStep rs tabId e).2.1.fileId = none) := by
  unfold selfHealStep
  cases hf : e.fileId with
  | none =>
    refine ⟨rfl, rfl, rfl, rfl, fun _ _ => rfl, fun h => h, rfl, rfl, rfl,
      ?_, ?_⟩
    · intro h
      simp at h
    · intro _
      exact hf
  | some f =>
    dsimp only
    by_cases hex : (lookupKey rs.drive.files f).isSome
    · rw [if_pos hex]
      exact ⟨rfl, rfl, rfl, rfl, fun _ _ => rfl, fun h => h, rfl, rfl, rfl,
        fun _ => ⟨rfl, f, rfl, hex⟩, fun h => by simp at h⟩
    · rw [if_neg hex]
      refine ⟨rfl, rfl, rfl, rfl,
        fun k hk => lookupKey_setKey_of_ne _ _ (fun hh => hk hh.symm),
        fun _ => lookupKey_setKey_self _ _ _, rfl, rfl, rfl,
        fun h => by simp at h, fun _ => rfl⟩

/-! ### Export step lemmas -/

theorem trashFold_folders (l : List String) : ∀ d : Drive,
    (l.foldl (fun d' fid => modFile d' fid fun f => { f with trashed := true })
      d).folders = d.folders := by
  induction l with
  | nil => intro d; rfl
  | cons x xs ih =>
    intro d
    rw [List.foldl_cons, ih, modFile_folders]

theorem trashFold_mono (l : List String) : ∀ d : Drive,
    driveMono d
      (l.foldl (fun d' fid => modFile d' fid fun f => { f with trashed := true })
        d) := by
  induction l with
  | nil => intro d; exact driveMono_refl d
  | cons x xs ih =>
    intro d
    rw [List.foldl_cons]
    exact driveMono_trans (driveMono_modFile _ _ _) (ih _)

theorem exportLoop_200 (resp : Nat → FetchResp)
    (tabId pdfName folderId : String) (drive : Drive) (fuel i : Nat)
    (h : resp i = .status 200) :
    ∃ fid drive2 ops2,
      exportLoop resp tabId pdfName folderId drive i (fuel + 1) =
        ⟨some fid, drive2, ops2⟩ ∧
      (lookupKey drive2.files fid).isSome ∧
      driveMono drive drive2 ∧
      drive2.folders = drive.folders := by
  simp only [exportLoop, h, if_pos rfl, reduceIte]
  refine ⟨_, _, _, rfl, ?_, ?_, ?_⟩
  · simp [lookupKey_setKey_self]
  · refine driveMono_trans (trashFold_mono _ drive) ⟨fun f hf => ?_, fun fd hfd => hfd⟩
    exact lookupKey_setKey_isSome _ _ _ hf
  · exact trashFold_folders _ drive

theorem exportTabToPDF_200 (renderer : String → Nat → FetchResp)
    (tabId tabTitle folderId : String) (drive : Drive)
    (h : renderer tabId 0 = .status 200) :
    ∃ fid drive2 ops2,
      exportTabToPDF renderer tabId tabTitle folderId drive =
        ⟨some fid, drive2, ops2⟩ ∧
      (lookupKey drive2.files fid).isSome ∧
      driveMono drive drive2 ∧
      drive2.folders = drive.folders := by
  unfold exportTabToPDF
  exact exportLoop_200 _ _ _ _ _ MAX_RETRIES 0 h

theorem exportLoop_mono (resp : Nat → FetchResp)
    (tabId pdfName folderId : String) (drive : Drive) :
    ∀ fuel i,
      driveMono drive (exportLoop resp tabId pdfName folderId drive i fuel).drive := by
  intro fuel
  induction fuel with
  | zero => intro i; exact driveMono_refl _
  | succ n ih =>
    intro i
    match hr : resp i with
    | .status c =>
      by_cases h200 : c = 200
      · subst h200
        obtain ⟨fid, drive2, ops2, heq, _, hmono, _⟩ :=
          exportLoop_200 resp tabId pdfName folderId drive n i hr
        rw [heq]
        exact hmono
      · by_cases h429 : c = 429
        · subst h429
          simp only [exportLoop, hr, if_neg h200, if_pos rfl]
          exact ih (i + 1)
        · simp only [exportLoop, hr, if_neg h200, if_neg h429]
          exact ih (i + 1)
    | .thrown =>
      by_cases hi : i < MAX_RETRIES
      · simp only [exportLoop, hr, if_pos hi]
        exact ih (i + 1)
      · simp only [exportLoop, hr, if_neg hi]
        exact ih (i + 1)

theorem exportTabToPDF_mono (renderer : String → Nat → FetchResp)
    (tabId tabTitle folderId : String) (drive : Drive) :
    driveMono drive
      (exportTabToPDF renderer tabId tabTitle folderId drive).drive := by
  unfold exportTabToPDF
  exact exportLoop_mono _ _ _ _ _ (MAX_RETRIES + 1) 0

theorem exportStep_context (renderer : String → Nat → FetchResp)
    (tabId tabTitle parentFolderId currentParentName currentHash : String)
    (contentChanged fileExists structureChanged : Bool)
    (e : TrackedEntry) (rs : RS) :
    (∀ k, k ≠ tabId →
      lookupKey (exportStep renderer tabId tabTitle parentFolderId
        currentParentName currentHash contentChanged fileExists
        structureChanged e rs).1.st k = lookupKey rs.st k) ∧
    (∀ k, k ≠ tabId →
      lookupKey (exportStep renderer tabId tabTitle parentFolderId
        currentParentName currentHash contentChanged fileExists
        structureChanged e rs).1.props.hashes k =
        lookupKey rs.props.hashes k) ∧
    (exportStep renderer tabId tabTitle parentFolderId currentParentName
      currentHash contentChanged fileExists structureChanged e rs).1.active =
      rs.active ∧
    driveMono rs.drive
      (exportStep renderer tabId tabTitle parentFolderId currentParentName
        currentHash contentChanged fileExists structureChanged e rs).1.drive ∧
    (exportStep renderer tabId tabTitle parentFolderId currentParentName
      currentHash contentChanged fileExists structureChanged e rs).1.props.lock =
      rs.props.lock ∧
    (exportStep renderer tabId tabTitle parentFolderId currentParentName
      currentHash contentChanged fileExists structureChanged e
      rs).1.props.stateJson = rs.props.stateJson ∧
    (∃ new, (exportStep renderer tabId tabTitle parentFolderId
      currentParentName currentHash contentChanged fileExists
      structureChanged e rs).1.ops = rs.ops ++ new) := by
  unfold exportStep
  by_cases hcond : (contentChanged || !fileExists) = true
  · rw [if_pos hcond]
    dsimp only
    cases hfile : (exportTabToPDF renderer tabId tabTitle parentFolderId
        rs.drive).file with
    | some fid =>
      dsimp only [putEntry]
      refine ⟨fun k hk => ?_, fun k hk => ?_, rfl, ?_, rfl, rfl, ?_⟩
      · exact lookupKey_setKey_of_ne _ _ (fun hh => hk hh.symm)
      · exact lookupKey_setKey_of_ne _ _ (fun hh => hk hh.symm)
      · exact exportTabToPDF_mono renderer tabId tabTitle parentFolderId
          rs.drive
      · exact ⟨_, by rw [List.append_assoc]⟩
    | none =>
      dsimp only
      refine ⟨fun k hk => rfl, fun k hk => rfl, rfl, ?_, rfl, rfl, ⟨_, rfl⟩⟩
      exact exportTabToPDF_mono renderer tabId tabTitle parentFolderId rs.drive
  · rw [if_neg hcond]
    by_cases hstruct : structureChanged = true
    · rw [if_pos hstruct]
      cases hfile : e.fileId with
      | none => exact ⟨fun _ _ => rfl, fun _ _ => rfl, rfl, driveMono_refl _,
          rfl, rfl, ⟨[], by simp⟩⟩
      | some f =>
        dsimp only
        by_cases hex : (lookupKey rs.drive.files f).isSome
        · rw [if_pos hex]
          obtain ⟨hst, hact, hprops, hmono, new, hops, _⟩ :=
            moveItemFile_spec rs f parentFolderId
          refine ⟨fun k hk => ?_, fun k hk => ?_, ?_, hmono, ?_, ?_, ?_⟩
          · simp only [putEntry]
            rw [lookupKey_setKey_of_ne _ _ (fun hh => hk hh.symm), hst]
          · simp only [putEntry, hprops]
          · simp only [putEntry, hact]
          · simp only [putEntry, hprops]
          · simp only [putEntry, hprops]
          · exact ⟨new, by simp only [putEntry, hops]⟩
        · rw [if_neg hex]
          exact ⟨fun _ _ => rfl, fun _ _ => rfl, rfl, driveMono_refl _,
            rfl, rfl, ⟨[], by simp⟩⟩
    · rw [if_neg hstruct]
      exact ⟨fun _ _ => rfl, fun _ _ => rfl, rfl, driveMono_refl _,
        rfl, rfl, ⟨[], by simp⟩⟩

theorem exportStep_entry (renderer : String → Nat → FetchResp)
    (tabId tabTitle parentFolderId currentParentName currentHash : String)
    (contentChanged fileExists structureChanged : Bool)
    (e : TrackedEntry) (rs : RS)
    (h : lookupKey rs.st tabId = some e) :
    lookupKey (exportStep renderer tabId tabTitle parentFolderId
      currentParentName currentHash contentChanged fileExists
      structureChanged e rs).1.st tabId =
      some (exportStep renderer tabId tabTitle parentFolderId
        currentParentName currentHash contentChanged fileExists
        structureChanged e rs).2.1 := by
  unfold exportStep
  by_cases hcond : (contentChanged || !fileExists) = true
  · rw [if_pos hcond]
    dsimp only
    cases hfile : (exportTabToPDF renderer tabId tabTitle parentFolderId
        rs.drive).file with
    | some fid =>
      dsimp only [putEntry]
      exact lookupKey_setKey_self _ _ _
    | none =>
      dsimp only
      exact h
  · rw [if_neg hcond]
    by_cases hstruct : structureChanged = true
    · rw [if_pos hstruct]
      cases hfile : e.fileId with
      | none => exact h
      | some f =>
        dsimp only
        by_cases hex : (lookupKey rs.drive.files f).isSome
        · rw [if_pos hex]
          exact lookupKey_setKey_self _ _ _
        · rw [if_neg hex]
          exact h
    · rw [if_neg hstruct]
      exact h

theorem exportTabToPDF_none_drive (renderer : String → Nat → FetchResp)
    (tabId tabTitle folderId : String) (drive : Drive)
    (h : (exportTabToPDF renderer tabId tabTitle folderId drive).file = none) :
    (exportTabToPDF renderer tabId tabTitle folderId drive).drive = drive := by
  unfold exportTabToPDF at h ⊢
  exact exportLoop_none_drive _ _ _ _ _ (MAX_RETRIES + 1) 0 h

/-- When the gateway returns null the export block changes nothing:
the entry, the fingerprint store, the dirty flag, the export count,
the state object and the Drive are exactly as before the attempt;
only the gateway's own trace (fetches and backoff sleeps) is appended. -/
theorem exportStep_fail (renderer : String → Nat → FetchResp)
    (tabId tabTitle parentFolderId currentParentName currentHash : String)
    (contentChanged fileExists structureChanged : Bool)
    (e : TrackedEntry) (rs : RS)
    (hcond : (contentChanged || !fileExists) = true)
    (hfail : (exportTabToPDF renderer tabId tabTitle parentFolderId
      rs.drive).file = none) :
    exportStep renderer tabId tabTitle parentFolderId currentParentName
      currentHash contentChanged fileExists structureChanged e rs =
    ({ rs with ops := rs.ops ++
        (exportTabToPDF renderer tabId tabTitle parentFolderId rs.drive).ops },
      e, false, 0) := by
  unfold exportStep
  rw [hcond]
  dsimp only
  rw [hfail, exportTabToPDF_none_drive renderer tabId tabTitle parentFolderId
    rs.drive hfail]
  simp

/-- Against an always-succeeding renderer, the export block exports:
it returns a dirty flag, count 1, and an entry whose `fileId` is the
freshly created artifact (resolvable in Drive), whose `title` is the
current tab title and whose `parentName` is the current logical
parent; the new fingerprint is persisted. -/
theorem exportStep_success (renderer : String → Nat → FetchResp)
    (tabId tabTitle parentFolderId currentParentName currentHash : String)
    (contentChanged fileExists structureChanged : Bool)
    (e : TrackedEntry) (rs : RS)
    (hr : renderer tabId 0 = .status 200)
    (hcond : (contentChanged || !fileExists) = true) :
    ∃ fid,
      (exportStep renderer tabId tabTitle parentFolderId currentParentName
        currentHash contentChanged fileExists structureChanged e rs).2.1 =
        { e with
          fileId := some fid
          title := tabTitle
          parentName := some currentParentName } ∧
      (exportStep renderer tabId tabTitle parentFolderId currentParentName
        currentHash contentChanged fileExists structureChanged e
        rs).2.2.1 = true ∧
      (exportStep renderer tabId tabTitle parentFolderId currentParentName
        currentHash contentChanged fileExists structureChanged e
        rs).2.2.2 = 1 ∧
      lookupKey (exportStep renderer tabId tabTitle parentFolderId
        currentParentName currentHash contentChanged fileExists
        structureChanged e rs).1.st tabId =
        some { e with
          fileId := some fid
          title := tabTitle
          parentName := some currentParentName } ∧
      (lookupKey (exportStep renderer tabId tabTitle parentFolderId
        currentParentName currentHash contentChanged fileExists
        structureChanged e rs).1.drive.files fid).isSome ∧
      lookupKey (exportStep renderer tabId tabTitle parentFolderId
        currentParentName currentHash contentChanged fileExists
        structureChanged e rs).1.props.hashes tabId = some currentHash := by
  unfold exportStep
  rw [hcond]
  simp only [if_pos rfl]
  obtain ⟨fid, drive2, ops2, heq, hfid, hmono, hfolders⟩ :=
    exportTabToPDF_200 renderer tabId tabTitle parentFolderId rs.drive hr
  rw [heq]
  dsimp only [putEntry]
  exact ⟨fid, rfl, rfl, rfl, lookupKey_setKey_self _ _ _, hfid,
    lookupKey_setKey_self _ _ _⟩

/-- When the content is unchanged, the tracked file resolves and the
structure flag is clear, the export block does nothing at all. -/
theorem exportStep_noop (renderer : String → Nat → FetchResp)
    (tabId tabTitle parentFolderId currentParentName currentHash : String)
    (contentChanged fileExists structureChanged : Bool)
    (e : TrackedEntry) (rs : RS)
    (hcond : (contentChanged || !fileExists) = false)
    (hstruct : structureChanged = false) :
    exportStep renderer tabId tabTitle parentFolderId currentParentName
      currentHash contentChanged fileExists structureChanged e rs =
      (rs, e, false, 0) := by
  unfold exportStep
  rw [hcond]
  simp only [Bool.false_eq_true, if_false]
  rw [hstruct]
  simp only [Bool.false_eq_true, if_false]

/-- The relocation path of the export block: content unchanged, file
resolvable, structure flag set — the file is re-placed under the
current destination parent and the stored parent name is synced. -/
theorem exportStep_move (renderer : String → Nat → FetchResp)
    (tabId tabTitle parentFolderId currentParentName currentHash : String)
    (contentChanged fileExists structureChanged : Bool)
    (e : TrackedEntry) (rs : RS) (f : String)
    (hcond : (contentChanged || !fileExists) = false)
    (hstruct : structureChanged = true)
    (hf : e.fileId = some f)
    (hex : (lookupKey rs.drive.files f).isSome = true) :
    exportStep renderer tabId tabTitle parentFolderId currentParentName
      currentHash contentChanged fileExists structureChanged e rs =
      (putEntry (moveItemFile rs f parentFolderId) tabId
        { e with parentName := some currentParentName },
       { e with parentName := some currentParentName }, true, 0) := by
  unfold exportStep
  rw [hcond]
  simp only [Bool.false_eq_true, if_false]
  rw [hstruct]
  simp only [if_pos rfl]
  rw [hf]
  dsimp only
  rw [if_pos hex]
  simp

/-! ### Per-node pipeline lemmas -/

theorem selfHealStep_live (rs : RS) (tabId : String) (e : TrackedEntry)
    (f : String) (hf : e.fileId = some f)
    (hex : (lookupKey rs.drive.files f).isSome = true) :
    selfHealStep rs tabId e = (rs, e, true) := by
  unfold selfHealStep
  rw [hf]
  dsimp only
  rw [if_pos hex]

theorem ensureChildFolder_silent (e : TrackedEntry)
    (savedParentName : Option String)
    (currentParentName tabTitle tabId parentFolderId : String) (rs : RS)
    (fd : String) (hfd : e.folderId = some fd)
    (hex : (lookupKey rs.drive.folders fd).isSome = true)
    (hpar : savedParentName = some currentParentName) :
    ensureChildFolder e savedParentName currentParentName tabTitle tabId
      parentFolderId rs = (rs, fd) := by
  unfold ensureChildFolder
  rw [hfd]
  dsimp only
  rw [if_pos hex, hpar]
  simp

theorem ensureChildFolder_context (e : TrackedEntry)
    (savedParentName : Option String)
    (currentParentName tabTitle tabId parentFolderId : String) (rs : RS) :
    (∀ k, k ≠ tabId →
      lookupKey (ensureChildFolder e savedParentName currentParentName
        tabTitle tabId parentFolderId rs).1.st k = lookupKey rs.st k) ∧
    (ensureChildFolder e savedParentName currentParentName tabTitle tabId
      parentFolderId rs).1.active = rs.active ∧
    (ensureChildFolder e savedParentName currentParentName tabTitle tabId
      parentFolderId rs).1.props.hashes = rs.props.hashes ∧
    (ensureChildFolder e savedParentName currentParentName tabTitle tabId
      parentFolderId rs).1.props.lock = rs.props.lock ∧
    driveMono rs.drive (ensureChildFolder e savedParentName currentParentName
      tabTitle tabId parentFolderId rs).1.drive ∧
    (∃ new, (ensureChildFolder e savedParentName currentParentName tabTitle
      tabId parentFolderId rs).1.ops = rs.ops ++ new) := by
  unfold ensureChildFolder
  cases hfd : e.folderId with
  | some fd =>
    dsimp only
    simp only [Option.isSome_some, Bool.true_and]
    by_cases hex : (lookupKey rs.drive.folders fd).isSome = true
    · rw [if_pos hex]
      by_cases hmv : (!(savedParentName == some currentParentName)) = true
      · rw [if_pos hmv]
        obtain ⟨hst, hact, hprops, hmono, new, hops, _⟩ :=
          moveItemFolder_spec rs fd parentFolderId
        exact ⟨fun k _ => by rw [hst], hact, by rw [hprops], by rw [hprops],
          hmono, new, hops⟩
      · rw [if_neg hmv]
        exact ⟨fun _ _ => rfl, rfl, rfl, rfl, driveMono_refl _, [], by simp⟩
    · rw [if_neg hex]
      obtain ⟨hst, hact, hprops, hmono, ⟨new, hops⟩, hsub⟩ :=
        getOrCreateFolder_spec rs parentFolderId tabTitle
      refine ⟨fun k hk => ?_, ?_, ?_, ?_, hmono, ?_⟩
      · simp only [saveStateNow, putEntry]
        rw [lookupKey_setKey_of_ne _ _ (fun hh => hk hh.symm), hst]
      · simp only [saveStateNow, putEntry, hact]
      · simp only [saveStateNow, putEntry, hprops]
      · simp only [saveStateNow, putEntry, hprops]
      · exact ⟨new ++ [.saveState],
          by simp only [saveStateNow, putEntry, hops, List.append_assoc]⟩
  | none =>
    obtain ⟨hst, hact, hprops, hmono, ⟨new, hops⟩, hsub⟩ :=
      getOrCreateFolder_spec rs parentFolderId tabTitle
    refine ⟨fun k hk => ?_, ?_, ?_, ?_, hmono, ?_⟩
    · simp only [saveStateNow, putEntry]
      rw [lookupKey_setKey_of_ne _ _ (fun hh => hk hh.symm), hst]
    · simp only [saveStateNow, putEntry, hact]
    · simp only [saveStateNow, putEntry, hprops]
    · simp only [saveStateNow, putEntry, hprops]
    · exact ⟨new ++ [.saveState],
        by simp only [saveStateNow, putEntry, hops, List.append_assoc]⟩

theorem ensureChildFolder_entry (e : TrackedEntry)
    (savedParentName : Option String)
    (currentParentName tabTitle tabId parentFolderId : String) (rs : RS)
    (h : lookupKey rs.st tabId = some e) :
    ∃ e', lookupKey (ensureChildFolder e savedParentName currentParentName
        tabTitle tabId parentFolderId rs).1.st tabId = some e' ∧
      e'.fileId = e.fileId ∧
      e'.title = e.title ∧
      e'.parentName = e.parentName ∧
      e'.folderId = some (ensureChildFolder e savedParentName
        currentParentName tabTitle tabId parentFolderId rs).2 ∧
      (lookupKey (ensureChildFolder e savedParentName currentParentName
        tabTitle tabId parentFolderId rs).1.drive.folders
        (ensureChildFolder e savedParentName currentParentName tabTitle
          tabId parentFolderId rs).2).isSome := by
  unfold ensureChildFolder
  cases hfd : e.folderId with
  | some fd =>
    dsimp only
    simp only [Option.isSome_some, Bool.true_and]
    by_cases hex : (lookupKey rs.drive.folders fd).isSome = true
    · rw [if_pos hex]
      by_cases hmv : (!(savedParentName == some currentParentName)) = true
      · rw [if_pos hmv]
        obtain ⟨hst, hact, hprops, hmono, _⟩ :=
          moveItemFolder_spec rs fd parentFolderId
        exact ⟨e, by rw [hst]; exact h, rfl, rfl, rfl, hfd, hmono.2 fd hex⟩
      · rw [if_neg hmv]
        exact ⟨e, h, rfl, rfl, rfl, hfd, hex⟩
    · rw [if_neg hex]
      obtain ⟨hst, hact, hprops, hmono, _, hsub⟩ :=
        getOrCreateFolder_spec rs parentFolderId tabTitle
      refine ⟨{ e with
          folderId := some (getOrCreateFolder rs parentFolderId tabTitle).2 },
        ?_, rfl, rfl, rfl, rfl, hsub⟩
      simp only [saveStateNow, putEntry]
      exact lookupKey_setKey_self _ _ _
  | none =>
    obtain ⟨hst, hact, hprops, hmono, _, hsub⟩ :=
      getOrCreateFolder_spec rs parentFolderId tabTitle
    refine ⟨{ e with
        folderId := some (getOrCreateFolder rs parentFolderId tabTitle).2 },
      ?_, rfl, rfl, rfl, rfl, hsub⟩
    simp only [saveStateNow, putEntry]
    exact lookupKey_setKey_self _ _ _

theorem nodeCore_context (renderer : String → Nat → FetchResp)
    (tabId tabTitle hv cur pf : String) (e0 : TrackedEntry) (rs2 : RS) :
    (∀ k, k ≠ tabId →
      lookupKey (nodeCore renderer tabId tabTitle hv cur pf e0 rs2).1.st k =
        lookupKey rs2.st k) ∧
    (∀ k, k ≠ tabId →
      lookupKey (nodeCore renderer tabId tabTitle hv cur pf e0
        rs2).1.props.hashes k = lookupKey rs2.props.hashes k) ∧
    (nodeCore renderer tabId tabTitle hv cur pf e0 rs2).1.active =
      rs2.active ∧
    driveMono rs2.drive
      (nodeCore renderer tabId tabTitle hv cur pf e0 rs2).1.drive ∧
    (nodeCore renderer tabId tabTitle hv cur pf e0 rs2).1.props.lock =
      rs2.props.lock ∧
    (∃ new, (nodeCore renderer tabId tabTitle hv cur pf e0 rs2).1.ops =
      rs2.ops ++ new) := by
  unfold nodeCore
  dsimp only
  have rn := renameStep_context rs2 tabId tabTitle e0
  generalize hR3 : renameStep rs2 tabId tabTitle e0 = r3 at rn ⊢
  obtain ⟨rnst, rnact, rnprops, rnmono, rnnew, rnops, _⟩ := rn
  have sh := selfHealStep_spec r3.1 tabId r3.2.1
  generalize hR4 : selfHealStep r3.1 tabId r3.2.1 = r4 at sh ⊢
  obtain ⟨shact, shdrive, shprops, shops, shst, _⟩ := sh
  have ex := exportStep_context renderer tabId tabTitle pf cur hv
    (!(lookupKey r3.1.props.hashes tabId == some hv)) r4.2.2
    (e0.fileId.isSome && !(e0.parentName == some cur)) r4.2.1 r4.1
  generalize hR5 : exportStep renderer tabId tabTitle pf cur hv
    (!(lookupKey r3.1.props.hashes tabId == some hv)) r4.2.2
    (e0.fileId.isSome && !(e0.parentName == some cur)) r4.2.1 r4.1 = r5
    at ex ⊢
  obtain ⟨exst, exh, exact', exmono, exlock, exjson, exnew, exops⟩ := ex
  by_cases hd : (r3.2.2 || r5.2.2.1) = true
  · rw [if_pos hd]
    obtain ⟨svst, svact, svdrive, svh, svlock, svjson, svops⟩ :=
      saveStateNow_spec r5.1
    refine ⟨fun k hk => ?_, fun k hk => ?_, ?_, ?_, ?_, ?_⟩
    · rw [svst, exst k hk, shst k hk, rnst k hk]
    · rw [svh, exh k hk, shprops, rnprops]
    · rw [svact, exact', shact, rnact]
    · rw [svdrive]
      exact driveMono_trans rnmono
        (driveMono_trans (by rw [shdrive]; exact driveMono_refl _) exmono)
    · rw [svlock, exlock, shprops, rnprops]
    · refine ⟨rnnew ++ ((exnew) ++ [.saveState]), ?_⟩
      rw [svops, exops, shops, rnops]
      simp [List.append_assoc]
  · rw [if_neg hd]
    refine ⟨fun k hk => ?_, fun k hk => ?_, ?_, ?_, ?_, ?_⟩
    · rw [exst k hk, shst k hk, rnst k hk]
    · rw [exh k hk, shprops, rnprops]
    · rw [exact', shact, rnact]
    · exact driveMono_trans rnmono
        (driveMono_trans (by rw [shdrive]; exact driveMono_refl _) exmono)
    · rw [exlock, shprops, rnprops]
    · refine ⟨rnnew ++ exnew, ?_⟩
      rw [exops, shops, rnops]
      simp [List.append_assoc]

/-- Against an always-succeeding renderer, the per-node pipeline leaves
the node fully reconciled: entry present and returned, stored title
synced (or empty), stored parent name equal to the current logical
parent, tracked file resolvable, fingerprint persisted. -/
theorem nodeCore_sync (renderer : String → Nat → FetchResp)
    (tabId tabTitle hv cur pf : String) (e0 : TrackedEntry) (rs2 : RS)
    (hr0 : renderer tabId 0 = .status 200)
    (hentry : lookupKey rs2.st tabId = some e0) :
    lookupKey (nodeCore renderer tabId tabTitle hv cur pf e0 rs2).1.st
      tabId = some (nodeCore renderer tabId tabTitle hv cur pf e0 rs2).2.1 ∧
    ((nodeCore renderer tabId tabTitle hv cur pf e0 rs2).2.1.title = "" ∨
      (nodeCore renderer tabId tabTitle hv cur pf e0 rs2).2.1.title =
        tabTitle) ∧
    (nodeCore renderer tabId tabTitle hv cur pf e0 rs2).2.1.parentName =
      some cur ∧
    (∃ f, (nodeCore renderer tabId tabTitle hv cur pf e0 rs2).2.1.fileId =
        some f ∧
      (lookupKey (nodeCore renderer tabId tabTitle hv cur pf e0
        rs2).1.drive.files f).isSome) ∧
    lookupKey (nodeCore renderer tabId tabTitle hv cur pf e0
      rs2).1.props.hashes tabId = some hv := by
  unfold nodeCore
  dsimp only
  have rnE := renameStep_entry rs2 tabId tabTitle e0 hentry
  have rnF := renameStep_fields rs2 tabId tabTitle e0
  generalize hR3 : renameStep rs2 tabId tabTitle e0 = r3 at rnE rnF ⊢
  obtain ⟨rnFf, rnFd, rnFp, rnFt⟩ := rnF
  have sh := selfHealStep_spec r3.1 tabId r3.2.1
  generalize hR4 : selfHealStep r3.1 tabId r3.2.1 = r4 at sh ⊢
  obtain ⟨shact, shdrive, shprops, shops, shst, shent, shfd, shtt, shpn,
    shT, shF⟩ := sh
  by_cases hb : (!(lookupKey r3.1.props.hashes tabId == some hv) ||
      !r4.2.2) = true
  · obtain ⟨fid, he3, hdirty, hcnt, hstfid, hfidlive, hhash⟩ :=
      exportStep_success renderer tabId tabTitle pf cur hv
        (!(lookupKey r3.1.props.hashes tabId == some hv)) r4.2.2
        (e0.fileId.isSome && !(e0.parentName == some cur)) r4.2.1 r4.1
        hr0 hb
    generalize hR5 : exportStep renderer tabId tabTitle pf cur hv
      (!(lookupKey r3.1.props.hashes tabId == some hv)) r4.2.2
      (e0.fileId.isSome && !(e0.parentName == some cur)) r4.2.1 r4.1 = r5
      at he3 hdirty hcnt hstfid hfidlive hhash ⊢
    rw [hdirty, Bool.or_true, if_pos rfl]
    obtain ⟨svst, svact, svdrive, svh, svlock, svjson, svops⟩ :=
      saveStateNow_spec r5.1
    refine ⟨?_, ?_, ?_, ⟨fid, ?_, ?_⟩, ?_⟩
    · rw [svst, hstfid, he3]
    · rw [he3]
      exact Or.inr rfl
    · rw [he3]
    · rw [he3]
    · rw [svdrive]
      exact hfidlive
    · rw [svh, hhash]
  · rw [Bool.not_eq_true] at hb
    have hcc : (!(lookupKey r3.1.props.hashes tabId == some hv)) = false :=
      (Bool.or_eq_false_iff.mp hb).1
    have hfe : r4.2.2 = true := by
      have := (Bool.or_eq_false_iff.mp hb).2
      simpa using this
    have hstored : lookupKey r3.1.props.hashes tabId = some hv := by
      have : (lookupKey r3.1.props.hashes tabId == some hv) = true := by
        simpa using hcc
      exact eq_of_beq this
    obtain ⟨he2eq, f, hf, hlive⟩ := shT hfe
    by_cases hsc : (e0.fileId.isSome && !(e0.parentName == some cur)) = true
    · have heq := exportStep_move renderer tabId tabTitle pf cur hv
        (!(lookupKey r3.1.props.hashes tabId == some hv)) r4.2.2
        (e0.fileId.isSome && !(e0.parentName == some cur)) r4.2.1 r4.1 f
        hb hsc (by rw [he2eq]; exact hf) (by rw [shdrive]; exact hlive)
      rw [heq]
      dsimp only
      rw [Bool.or_true, if_pos rfl]
      obtain ⟨mvst, mvact, mvprops, mvmono, _⟩ :=
        moveItemFile_spec r4.1 f pf
      obtain ⟨svst, svact, svdrive, svh, svlock, svjson, svops⟩ :=
        saveStateNow_spec (putEntry (moveItemFile r4.1 f pf) tabId
          { r4.2.1 with parentName := some cur })
      refine ⟨?_, ?_, rfl, ⟨f, ?_, ?_⟩, ?_⟩
      · rw [svst]
        simp only [putEntry]
        rw [lookupKey_setKey_self]
      · dsimp only
        rw [he2eq]
        exact rnFt
      · dsimp only
        rw [he2eq]
        exact hf
      · rw [svdrive]
        simp only [putEntry]
        exact mvmono.1 f (by rw [shdrive]; exact hlive)
      · rw [svh]
        simp only [putEntry]
        rw [mvprops, shprops]
        exact hstored
    · rw [Bool.not_eq_true] at hsc
      have heq := exportStep_noop renderer tabId tabTitle pf cur hv
        (!(lookupKey r3.1.props.hashes tabId == some hv)) r4.2.2
        (e0.fileId.isSome && !(e0.parentName == some cur)) r4.2.1 r4.1
        hb hsc
      rw [heq]
      dsimp only
      have hpn : e0.parentName = some cur := by
        have hfid0 : e0.fileId = some f := by rw [← rnFf, hf]
        have : e0.fileId.isSome = true := by rw [hfid0]; rfl
        rw [this, Bool.true_and, Bool.not_eq_false'] at hsc
        exact eq_of_beq hsc
      have hcore :
          lookupKey r4.1.st tabId = some r4.2.1 ∧
          (r4.2.1.title = "" ∨ r4.2.1.title = tabTitle) ∧
          r4.2.1.parentName = some cur ∧
          (r4.2.1.fileId = some f ∧
            (lookupKey r4.1.drive.files f).isSome) ∧
          lookupKey r4.1.props.hashes tabId = some hv := by
        refine ⟨shent rnE, ?_, ?_, ⟨?_, ?_⟩, ?_⟩
        · rw [he2eq]
          exact rnFt
        · rw [shpn, rnFp]
          exact hpn
        · rw [he2eq]
          exact hf
        · rw [shdrive]
          exact hlive
        · rw [shprops]
          exact hstored
      obtain ⟨hc1, hc2, hc3, ⟨hc4, hc5⟩, hc6⟩ := hcore
      by_cases hd : (r3.2.2 || false) = true
      · rw [if_pos hd]
        obtain ⟨svst, svact, svdrive, svh, svlock, svjson, svops⟩ :=
          saveStateNow_spec r4.1
        exact ⟨by rw [svst]; exact hc1, hc2, hc3, ⟨f, hc4, by rw [svdrive]; exact hc5⟩,
          by rw [svh]; exact hc6⟩
      · rw [if_neg hd]
        exact ⟨hc1, hc2, hc3, ⟨f, hc4, hc5⟩, hc6⟩

/-- A fully reconciled node passes through the per-node pipeline
untouched: no rename, no export, no move, no save — the pipeline
returns the context exactly as it received it. -/
theorem nodeCore_silent (renderer : String → Nat → FetchResp)
    (tabId tabTitle hv cur pf : String) (e0 : TrackedEntry) (rs2 : RS)
    (f : String)
    (htitle : e0.title = "" ∨ e0.title = tabTitle)
    (hpar : e0.parentName = some cur)
    (hfid : e0.fileId = some f)
    (hlive : (lookupKey rs2.drive.files f).isSome = true)
    (hhash : lookupKey rs2.props.hashes tabId = some hv) :
    nodeCore renderer tabId tabTitle hv cur pf e0 rs2 =
      (rs2, e0, e0.parentName, 0) := by
  unfold nodeCore
  dsimp only
  rw [renameStep_silent rs2 tabId tabTitle e0 htitle]
  dsimp only
  rw [hhash, selfHealStep_live rs2 tabId e0 f hfid hlive]
  dsimp only
  rw [hfid, hpar]
  simp only [beq_self_eq_true, Bool.not_true, Option.isSome_some,
    Bool.true_and, Bool.and_false]
  rw [exportStep_noop renderer tabId tabTitle pf cur hv false true false
    e0 rs2 rfl rfl]
  simp [hpar]

theorem preChildren_cases (renderer : String → Nat → FetchResp) (t : Tab)
    (parentFolderId : String) (path : List String) (rs : RS) :
    (∀ v, lookupKey rs.st t.id = some v →
      preChildren renderer t parentFolderId path rs =
        nodeCore renderer t.id t.title (getTabContentHash t) (curName path)
          parentFolderId v { rs with active := rs.active ++ [t.id] }) ∧
    (lookupKey rs.st t.id = none →
      preChildren renderer t parentFolderId path rs =
        nodeCore renderer t.id t.title (getTabContentHash t) (curName path)
          parentFolderId ⟨none, none, t.title, none⟩
          (putEntry { rs with active := rs.active ++ [t.id] } t.id
            ⟨none, none, t.title, none⟩)) := by
  constructor
  · intro v h
    unfold preChildren
    dsimp only
    rw [h]
    dsimp only
    rw [h]
    simp only [Option.getD_some]
  · intro h
    unfold preChildren
    dsimp only
    rw [h]
    dsimp only [putEntry]
    rw [lookupKey_setKey_self]
    simp only [Option.getD_some]

theorem preChildren_context (renderer : String → Nat → FetchResp) (t : Tab)
    (parentFolderId : String) (path : List String) (rs : RS) :
    (∀ k, k ≠ t.id →
      lookupKey (preChildren renderer t parentFolderId path rs).1.st k =
        lookupKey rs.st k) ∧
    (∀ k, k ≠ t.id →
      lookupKey (preChildren renderer t parentFolderId path
        rs).1.props.hashes k = lookupKey rs.props.hashes k) ∧
    (preChildren renderer t parentFolderId path rs).1.active =
      rs.active ++ [t.id] ∧
    driveMono rs.drive
      (preChildren renderer t parentFolderId path rs).1.drive ∧
    (preChildren renderer t parentFolderId path rs).1.props.lock =
      rs.props.lock ∧
    (∃ new, (preChildren renderer t parentFolderId path rs).1.ops =
      rs.ops ++ new) := by
  cases h : lookupKey rs.st t.id with
  | some v =>
    rw [(preChildren_cases renderer t parentFolderId path rs).1 v h]
    obtain ⟨hst, hh, hact, hmono, hlock, hops⟩ :=
      nodeCore_context renderer t.id t.title (getTabContentHash t)
        (curName path) parentFolderId v { rs with active := rs.active ++ [t.id] }
    exact ⟨hst, hh, hact, hmono, hlock, hops⟩
  | none =>
    rw [(preChildren_cases renderer t parentFolderId path rs).2 h]
    obtain ⟨hst, hh, hact, hmono, hlock, hops⟩ :=
      nodeCore_context renderer t.id t.title (getTabContentHash t)
        (curName path) parentFolderId ⟨none, none, t.title, none⟩
        (putEntry { rs with active := rs.active ++ [t.id] } t.id
          ⟨none, none, t.title, none⟩)
    refine ⟨fun k hk => ?_, hh, hact, hmono, hlock, hops⟩
    rw [hst k hk]
    simp only [putEntry]
    exact lookupKey_setKey_of_ne _ _ (fun hh2 => hk hh2.symm)

theorem preChildren_sync (renderer : String → Nat → FetchResp) (t : Tab)
    (parentFolderId : String) (path : List String) (rs : RS)
    (hr0 : renderer t.id 0 = .status 200) :
    lookupKey (preChildren renderer t parentFolderId path rs).1.st t.id =
      some (preChildren renderer t parentFolderId path rs).2.1 ∧
    ((preChildren renderer t parentFolderId path rs).2.1.title = "" ∨
      (preChildren renderer t parentFolderId path rs).2.1.title = t.title) ∧
    (preChildren renderer t parentFolderId path rs).2.1.parentName =
      some (curName path) ∧
    (∃ f, (preChildren renderer t parentFolderId path rs).2.1.fileId =
        some f ∧
      (lookupKey (preChildren renderer t parentFolderId path
        rs).1.drive.files f).isSome) ∧
    lookupKey (preChildren renderer t parentFolderId path
      rs).1.props.hashes t.id = some (getTabContentHash t) := by
  cases h : lookupKey rs.st t.id with
  | some v =>
    rw [(preChildren_cases renderer t parentFolderId path rs).1 v h]
    exact nodeCore_sync renderer t.id t.title (getTabContentHash t)
      (curName path) parentFolderId v { rs with active := rs.active ++ [t.id] }
      hr0 h
  | none =>
    rw [(preChildren_cases renderer t parentFolderId path rs).2 h]
    refine nodeCore_sync renderer t.id t.title (getTabContentHash t)
      (curName path) parentFolderId ⟨none, none, t.title, none⟩
      (putEntry { rs with active := rs.active ++ [t.id] } t.id
        ⟨none, none, t.title, none⟩) hr0 ?_
    simp only [putEntry]
    exact lookupKey_setKey_self _ _ _

theorem preChildren_silent (renderer : String → Nat → FetchResp) (t : Tab)
    (parentFolderId : String) (path : List String) (rs : RS)
    (e : TrackedEntry) (f : String)
    (hentry : lookupKey rs.st t.id = some e)
    (htitle : e.title = "" ∨ e.title = t.title)
    (hpar : e.parentName = some (curName path))
    (hfid : e.fileId = some f)
    (hlive : (lookupKey rs.drive.files f).isSome = true)
    (hhash : lookupKey rs.props.hashes t.id = some (getTabContentHash t)) :
    preChildren renderer t parentFolderId path rs =
      ({ rs with active := rs.active ++ [t.id] }, e, e.parentName, 0) := by
  rw [(preChildren_cases renderer t parentFolderId path rs).1 e hentry]
  exact nodeCore_silent renderer t.id t.title (getTabContentHash t)
    (curName path) parentFolderId e { rs with active := rs.active ++ [t.id] }
    f htitle hpar hfid hlive hhash

/-! ### Traversal lemmas -/

theorem tabIds_def (t : Tab) : tabIds t = t.id :: forestIds t.children := by
  cases t
  rfl

theorem visitedTab_def (t : Tab) :
    visitedTab t = t.id :: visitedForest t.children := by
  cases t
  rfl

theorem id_mem_tabIds (t : Tab) : t.id ∈ tabIds t := by
  rw [tabIds_def]
  exact List.mem_cons_self _ _

theorem allDocTab_def (t : Tab) :
    allDocTab t ↔ t.docType = true ∧ allDocForest t.children := by
  cases t
  rfl

theorem treeSynced_def (st : List (String × TrackedEntry))
    (hashes : List (String × String)) (d : Drive) (t : Tab) (cur : String) :
    treeSynced st hashes d t cur ↔
      nodeSynced st hashes d t cur ∧
        forestSynced st hashes d t.children t.title := by
  cases t
  rw [treeSynced]
  simp [Tab.children, Tab.title]

mutual

theorem processTab_frame (renderer : String → Nat → FetchResp) (t : Tab)
    (pf : String) (path : List String) (rs : RS) :
    frameT (tabIds t) rs (processTab renderer t pf path rs).1 ∧
    (processTab renderer t pf path rs).1.active =
      rs.active ++ visitedTab t := by
  rw [processTab]
  dsimp only
  obtain ⟨pst, ph, pact, pmono, plock, pops⟩ :=
    preChildren_context renderer t pf path rs
  generalize hR6 : preChildren renderer t pf path rs = r6
    at pst ph pact pmono plock pops ⊢
  have hframe1 : frameT (tabIds t) rs r6.1 := by
    refine ⟨fun k hk => pst k ?_, fun k hk => ph k ?_, pmono, plock, pops⟩
    · intro hh
      exact hk (hh ▸ id_mem_tabIds t)
    · intro hh
      exact hk (hh ▸ id_mem_tabIds t)
  by_cases hemp : t.children.isEmpty
  · rw [if_pos hemp]
    refine ⟨hframe1, ?_⟩
    have hnil : t.children = [] := List.isEmpty_iff.mp hemp
    rw [pact, visitedTab_def, hnil]
    simp [visitedForest]
  · rw [if_neg hemp]
    dsimp only
    obtain ⟨est, eact, eh, elock, emono, eops⟩ :=
      ensureChildFolder_context r6.2.1 r6.2.2.1 (curName path) t.title t.id
        pf r6.1
    generalize hR9 : ensureChildFolder r6.2.1 r6.2.2.1 (curName path)
      t.title t.id pf r6.1 = r9 at est eact eh elock emono eops ⊢
    obtain ⟨fframe, fact⟩ :=
      processForest_frame renderer t.children r9.2 (path ++ [t.title]) r9.1
    generalize hR10 : processForest renderer t.children r9.2
      (path ++ [t.title]) r9.1 = r10 at fframe fact ⊢
    have hframe2 : frameT (tabIds t) r6.1 r9.1 := by
      refine ⟨fun k hk => est k ?_, fun k hk => by rw [eh], emono,
        elock, eops⟩
      intro hh
      exact hk (hh ▸ id_mem_tabIds t)
    have hframe3 : frameT (tabIds t) r9.1 r10.1 := by
      refine frameT_mono (fun k hk => ?_) fframe
      rw [tabIds_def]
      exact List.mem_cons_of_mem _ hk
    refine ⟨frameT_trans hframe1 (frameT_trans hframe2 hframe3), ?_⟩
    rw [fact, eact, pact, visitedTab_def]
    simp
termination_by sizeOf t
decreasing_by
  all_goals cases t
  all_goals simp [Tab.children]

theorem processForest_frame (renderer : String → Nat → FetchResp)
    (ts : List Tab) (pf : String) (path : List String) (rs : RS) :
    frameT (forestIds ts) rs (processForest renderer ts pf path rs).1 ∧
    (processForest renderer ts pf path rs).1.active =
      rs.active ++ visitedForest ts := by
  match ts with
  | [] =>
    rw [processForest]
    exact ⟨frameT_refl _ _, by simp [visitedForest]⟩
  | t :: rest =>
    rw [processForest]
    dsimp only
    by_cases hdoc : t.docType = true
    · rw [if_pos hdoc]
      obtain ⟨tframe, tact⟩ := processTab_frame renderer t pf path rs
      generalize hR1 : processTab renderer t pf path rs = r1
        at tframe tact ⊢
      obtain ⟨rframe, ract⟩ :=
        processForest_frame renderer rest pf path r1.1
      generalize hR2 : processForest renderer rest pf path r1.1 = r2
        at rframe ract ⊢
      constructor
      · refine frameT_trans (frameT_mono (fun k hk => ?_) tframe)
          (frameT_mono (fun k hk => ?_) rframe)
        · simp only [forestIds, List.mem_append]
          exact Or.inl hk
        · simp only [forestIds, List.mem_append]
          exact Or.inr hk
      · rw [ract, tact, visitedForest]
        simp [hdoc]
    · rw [if_neg hdoc]
      dsimp only
      obtain ⟨rframe, ract⟩ := processForest_frame renderer rest pf path rs
      constructor
      · refine frameT_mono (fun k hk => ?_) rframe
        simp only [forestIds, List.mem_append]
        exact Or.inr hk
      · rw [ract, visitedForest]
        have : t.docType = false := by
          cases hb : t.docType
          · rfl
          · exact absurd hb hdoc
        simp [this]
termination_by sizeOf ts
decreasing_by
  all_goals simp
  all_goals omega

end

theorem curName_concat (path : List String) (x : String) :
    curName (path ++ [x]) = x := by
  unfold curName
  rw [List.getLast?_concat]
  rfl

theorem nodeSynced_preserve {st st' : List (String × TrackedEntry)}
    {h h' : List (String × String)} {d d' : Drive} {t : Tab} {cur : String}
    (hs : nodeSynced st h d t cur)
    (hst : lookupKey st' t.id = lookupKey st t.id)
    (hh : lookupKey h' t.id = lookupKey h t.id)
    (hd : driveMono d d') : nodeSynced st' h' d' t cur := by
  obtain ⟨e, he, ht, hp, ⟨f, hf, hlive⟩, hhash, hfold⟩ := hs
  refine ⟨e, by rw [hst]; exact he, ht, hp, ⟨f, hf, hd.1 f hlive⟩,
    by rw [hh]; exact hhash, fun hch => ?_⟩
  obtain ⟨fd, hfd, hfdlive⟩ := hfold hch
  exact ⟨fd, hfd, hd.2 fd hfdlive⟩

mutual

theorem treeSynced_preserve {st st' : List (String × TrackedEntry)}
    {h h' : List (String × String)} {d d' : Drive} (t : Tab) (cur : String)
    (hs : treeSynced st h d t cur)
    (hst : ∀ k, k ∈ tabIds t → lookupKey st' k = lookupKey st k)
    (hh : ∀ k, k ∈ tabIds t → lookupKey h' k = lookupKey h k)
    (hd : driveMono d d') : treeSynced st' h' d' t cur := by
  rw [treeSynced_def] at hs ⊢
  refine ⟨nodeSynced_preserve hs.1 (hst t.id (id_mem_tabIds t))
    (hh t.id (id_mem_tabIds t)) hd, ?_⟩
  refine forestSynced_preserve t.children t.title hs.2
    (fun k hk => hst k ?_) (fun k hk => hh k ?_) hd
  · rw [tabIds_def]
    exact List.mem_cons_of_mem _ hk
  · rw [tabIds_def]
    exact List.mem_cons_of_mem _ hk
termination_by sizeOf t
decreasing_by
  all_goals cases t
  all_goals simp [Tab.children]

theorem forestSynced_preserve {st st' : List (String × TrackedEntry)}
    {h h' : List (String × String)} {d d' : Drive} (ts : List Tab)
    (cur : String)
    (hs : forestSynced st h d ts cur)
    (hst : ∀ k, k ∈ forestIds ts → lookupKey st' k = lookupKey st k)
    (hh : ∀ k, k ∈ forestIds ts → lookupKey h' k = lookupKey h k)
    (hd : driveMono d d') : forestSynced st' h' d' ts cur := by
  match ts with
  | [] =>
    rw [forestSynced]
    trivial
  | t :: rest =>
    rw [forestSynced] at hs ⊢
    refine ⟨treeSynced_preserve t cur hs.1 (fun k hk => hst k ?_)
      (fun k hk => hh k ?_) hd,
      forestSynced_preserve rest cur hs.2 (fun k hk => hst k ?_)
        (fun k hk => hh k ?_) hd⟩
    · simp only [forestIds, List.mem_append]
      exact Or.inl hk
    · simp only [forestIds, List.mem_append]
      exact Or.inl hk
    · simp only [forestIds, List.mem_append]
      exact Or.inr hk
    · simp only [forestIds, List.mem_append]
      exact Or.inr hk
termination_by sizeOf ts
decreasing_by
  all_goals simp
  all_goals omega

end

mutual

/-- Against an always-succeeding renderer, one traversal of a subtree
with distinct ids leaves the whole subtree reconciled. -/
theorem processTab_sync (renderer : String → Nat → FetchResp) (t : Tab)
    (pf : String) (path : List String) (rs : RS)
    (hr : renderer200 renderer) (hdoc : allDocTab t)
    (hnd : (tabIds t).Nodup) :
    treeSynced (processTab renderer t pf path rs).1.st
      (processTab renderer t pf path rs).1.props.hashes
      (processTab renderer t pf path rs).1.drive t (curName path) := by
  have hnd2 := hnd
  rw [tabIds_def, List.nodup_cons] at hnd2
  rw [processTab]
  dsimp only
  obtain ⟨sentry, stitle, spar, ⟨f, sfid, slive⟩, shash⟩ :=
    preChildren_sync renderer t pf path rs (hr t.id 0)
  generalize hR6 : preChildren renderer t pf path rs = r6
    at sentry stitle spar sfid slive shash ⊢
  by_cases hemp : t.children.isEmpty
  · rw [if_pos hemp]
    have hnil : t.children = [] := List.isEmpty_iff.mp hemp
    rw [treeSynced_def, hnil]
    refine ⟨⟨r6.2.1, sentry, stitle, spar, ⟨f, sfid, slive⟩, shash, ?_⟩, ?_⟩
    · intro hch
      rw [hnil] at hch
      exact absurd rfl hch
    · rw [forestSynced]
      trivial
  · rw [if_neg hemp]
    dsimp only
    obtain ⟨e', hent', hfid', htit', hpar', hfold', hfoldlive'⟩ :=
      ensureChildFolder_entry r6.2.1 r6.2.2.1 (curName path) t.title t.id
        pf r6.1 sentry
    obtain ⟨est, eact, eh, elock, emono, eops⟩ :=
      ensureChildFolder_context r6.2.1 r6.2.2.1 (curName path) t.title t.id
        pf r6.1
    generalize hR9 : ensureChildFolder r6.2.1 r6.2.2.1 (curName path)
      t.title t.id pf r6.1 = r9
      at hent' hfid' htit' hpar' hfold' hfoldlive' est eact eh elock emono
        eops ⊢
    have hfsync := processForest_sync renderer t.children r9.2
      (path ++ [t.title]) r9.1 hr ((allDocTab_def t).mp hdoc).2 hnd2.2
    obtain ⟨⟨fst, fh, fmono, flock, fops⟩, fact⟩ :=
      processForest_frame renderer t.children r9.2 (path ++ [t.title]) r9.1
    generalize hR10 : processForest renderer t.children r9.2
      (path ++ [t.title]) r9.1 = r10 at hfsync fst fh fmono flock fops ⊢
    rw [treeSynced_def]
    constructor
    · refine ⟨e', ?_, ?_, ?_, ⟨f, ?_, ?_⟩, ?_, ?_⟩
      · rw [fst t.id hnd2.1, hent']
      · rw [htit']
        exact stitle
      · rw [hpar']
        exact spar
      · rw [hfid']
        exact sfid
      · exact fmono.1 f (emono.1 f slive)
      · rw [fh t.id hnd2.1, eh]
        exact shash
      · intro _
        exact ⟨r9.2, hfold', fmono.2 _ hfoldlive'⟩
    · rw [← curName_concat path t.title]
      exact hfsync
termination_by sizeOf t
decreasing_by
  all_goals cases t
  all_goals simp [Tab.children]

theorem processForest_sync (renderer : String → Nat → FetchResp)
    (ts : List Tab) (pf : String) (path : List String) (rs : RS)
    (hr : renderer200 renderer) (hdoc : allDocForest ts)
    (hnd : (forestIds ts).Nodup) :
    forestSynced (processForest renderer ts pf path rs).1.st
      (processForest renderer ts pf path rs).1.props.hashes
      (processForest renderer ts pf path rs).1.drive ts (curName path) := by
  match ts with
  | [] =>
    rw [forestSynced]
    trivial
  | t :: rest =>
    rw [allDocForest] at hdoc
    have hnd' := hnd
    simp only [forestIds] at hnd'
    rw [List.nodup_append] at hnd'
    rw [processForest]
    dsimp only
    have hdt : t.docType = true := ((allDocTab_def t).mp hdoc.1).1
    rw [if_pos hdt]
    have htsync := processTab_sync renderer t pf path rs hr hdoc.1 hnd'.1
    generalize hR1 : processTab renderer t pf path rs = r1 at htsync ⊢
    have hrsync := processForest_sync renderer rest pf path r1.1 hr hdoc.2
      hnd'.2.1
    obtain ⟨⟨fst, fh, fmono, flock, fops⟩, fact⟩ :=
      processForest_frame renderer rest pf path r1.1
    generalize hR2 : processForest renderer rest pf path r1.1 = r2
      at hrsync fst fh fmono flock fops ⊢
    rw [forestSynced]
    refine ⟨treeSynced_preserve t (curName path) htsync
      (fun k hk => fst k ?_) (fun k hk => fh k ?_) fmono, hrsync⟩
    · exact fun hm => hnd'.2.2 hk hm
    · exact fun hm => hnd'.2.2 hk hm
termination_by sizeOf ts
decreasing_by
  all_goals simp
  all_goals omega

end

mutual

/-- Traversing a fully reconciled subtree is pure bookkeeping: the only
effect is recording the visited ids in the active set; no operation is
performed, no state is changed, and the export count is zero. -/
theorem processTab_silent (renderer : String → Nat → FetchResp) (t : Tab)
    (pf : String) (path : List String) (rs : RS)
    (hs : treeSynced rs.st rs.props.hashes rs.drive t (curName path)) :
    processTab renderer t pf path rs =
      ({ rs with active := rs.active ++ visitedTab t }, 0) := by
  rw [treeSynced_def] at hs
  obtain ⟨⟨e, hent, htit, hpar, ⟨f, hfid, hlive⟩, hhash, hfold⟩, hchild⟩ := hs
  rw [processTab]
  dsimp only
  rw [preChildren_silent renderer t pf path rs e f hent htit hpar hfid
    hlive hhash]
  dsimp only
  by_cases hemp : t.children.isEmpty
  · rw [if_pos hemp]
    have hnil : t.children = [] := List.isEmpty_iff.mp hemp
    rw [visitedTab_def, hnil]
    simp [visitedForest]
  · rw [if_neg hemp]
    have hne : t.children ≠ [] := by
      intro hh
      rw [hh] at hemp
      exact hemp rfl
    obtain ⟨fd, hfd, hfdlive⟩ := hfold hne
    rw [ensureChildFolder_silent e e.parentName (curName path) t.title t.id
      pf { rs with active := rs.active ++ [t.id] } fd hfd hfdlive hpar]
    dsimp only
    rw [processForest_silent renderer t.children fd (path ++ [t.title])
      { rs with active := rs.active ++ [t.id] }
      (by rw [curName_concat]; exact hchild)]
    rw [visitedTab_def]
    simp [List.append_assoc]
termination_by sizeOf t
decreasing_by
  all_goals cases t
  all_goals simp [Tab.children]

theorem processForest_silent (renderer : String → Nat → FetchResp)
    (ts : List Tab) (pf : String) (path : List String) (rs : RS)
    (hs : forestSynced rs.st rs.props.hashes rs.drive ts (curName path)) :
    processForest renderer ts pf path rs =
      ({ rs with active := rs.active ++ visitedForest ts }, 0) := by
  match ts with
  | [] =>
    rw [processForest, visitedForest]
    simp
  | t :: rest =>
    rw [forestSynced] at hs
    rw [processForest]
    by_cases hdt : t.docType = true
    · rw [if_pos hdt]
      rw [processTab_silent renderer t pf path rs hs.1]
      rw [processForest_silent renderer rest pf path
        { rs with active := rs.active ++ visitedTab t } hs.2]
      rw [visitedForest]
      simp [hdt, List.append_assoc]
    · rw [if_neg hdt]
      dsimp only
      rw [processForest_silent renderer rest pf path rs hs.2]
      rw [visitedForest]
      have hdf : t.docType = false := by
        cases hb : t.docType
        · rfl
        · exact absurd hb hdt
      simp [hdf]
termination_by sizeOf ts
decreasing_by
  all_goals simp
  all_goals omega

end

/-! ### Orphan reaper lemmas -/

theorem reapFile_spec (rs : RS) (e : TrackedEntry) :
    (reapFile rs e).st = rs.st ∧
    (reapFile rs e).active = rs.active ∧
    (reapFile rs e).props = rs.props ∧
    driveMono rs.drive (reapFile rs e).drive ∧
    (∃ new, (reapFile rs e).ops = rs.ops ++ new ∧
      ∀ op ∈ new, ∃ f, op = Op.trashFile f ∧ e.fileId = some f) := by
  unfold reapFile
  cases hf : e.fileId with
  | none => exact ⟨rfl, rfl, rfl, driveMono_refl _, [], by simp, by simp⟩
  | some f =>
    dsimp only
    cases hl : lookupKey rs.drive.files f with
    | none => exact ⟨rfl, rfl, rfl, driveMono_refl _, [], by simp, by simp⟩
    | some df =>
      refine ⟨rfl, rfl, rfl, driveMono_modFile _ _ _,
        [Op.trashFile f], rfl, ?_⟩
      intro op hop
      simp only [List.mem_singleton] at hop
      exact ⟨f, hop, rfl⟩

theorem reapFolder_spec (rs : RS) (e : TrackedEntry) :
    (reapFolder rs e).st = rs.st ∧
    (reapFolder rs e).active = rs.active ∧
    (reapFolder rs e).props = rs.props ∧
    driveMono rs.drive (reapFolder rs e).drive ∧
    (∃ new, (reapFolder rs e).ops = rs.ops ++ new ∧
      ∀ op ∈ new, ∃ fd, op = Op.trashFolder fd ∧ e.folderId = some fd) := by
  unfold reapFolder
  cases hf : e.folderId with
  | none => exact ⟨rfl, rfl, rfl, driveMono_refl _, [], by simp, by simp⟩
  | some fd =>
    dsimp only
    cases hl : lookupKey rs.drive.folders fd with
    | none => exact ⟨rfl, rfl, rfl, driveMono_refl _, [], by simp, by simp⟩
    | some df =>
      dsimp only
      by_cases hempt : folderIsEmpty rs.drive fd = true
      · rw [if_pos hempt]
        refine ⟨rfl, rfl, rfl, driveMono_modFolder _ _ _,
          [Op.trashFolder fd], rfl, ?_⟩
        intro op hop
        simp only [List.mem_singleton] at hop
        exact ⟨fd, hop, rfl⟩
      · rw [if_neg hempt]
        exact ⟨rfl, rfl, rfl, driveMono_refl _, [], by simp, by simp⟩

theorem reapOrphan_spec (rs : RS) (tabId : String) :
    (reapOrphan rs tabId).active = rs.active ∧
    lookupKey (reapOrphan rs tabId).st tabId = none ∧
    (∀ k, k ≠ tabId →
      lookupKey (reapOrphan rs tabId).st k = lookupKey rs.st k) ∧
    (∀ k, k ≠ tabId →
      lookupKey (reapOrphan rs tabId).props.hashes k =
        lookupKey rs.props.hashes k) ∧
    driveMono rs.drive (reapOrphan rs tabId).drive ∧
    (reapOrphan rs tabId).props.lock = rs.props.lock ∧
    (reapOrphan rs tabId).props.stateJson = rs.props.stateJson ∧
    (∃ new, (reapOrphan rs tabId).ops = rs.ops ++ new ∧
      ∀ op ∈ new, ∃ e, lookupKey rs.st tabId = some e ∧
        ((∃ f, op = Op.trashFile f ∧ e.fileId = some f) ∨
          (∃ fd, op = Op.trashFolder fd ∧ e.folderId = some fd))) := by
  unfold reapOrphan
  cases hl : lookupKey rs.st tabId with
  | none =>
    exact ⟨rfl, hl, fun _ _ => rfl, fun _ _ => rfl, driveMono_refl _, rfl,
      rfl, [], by simp, by simp⟩
  | some e =>
    dsimp only
    obtain ⟨f1st, f1act, f1props, f1mono, new1, h1ops, h1orph⟩ :=
      reapFile_spec rs e
    obtain ⟨f2st, f2act, f2props, f2mono, new2, h2ops, h2orph⟩ :=
      reapFolder_spec (reapFile rs e) e
    refine ⟨?_, ?_, ?_, ?_, ?_, ?_, ?_, ?_⟩
    · rw [f2act, f1act]
    · rw [f2st, f1st]
      exact lookupKey_eraseKey_self _ _
    · intro k hk
      rw [f2st, f1st]
      exact lookupKey_eraseKey_of_ne _ (fun hh => hk hh.symm)
    · intro k hk
      rw [f2props, f1props]
      exact lookupKey_eraseKey_of_ne _ (fun hh => hk hh.symm)
    · exact driveMono_trans f1mono f2mono
    · rw [f2props, f1props]
    · rw [f2props, f1props]
    · refine ⟨new1 ++ new2, ?_, ?_⟩
      · rw [h2ops, h1ops, List.append_assoc]
      · intro op hop
        rcases List.mem_append.mp hop with hop | hop
        · obtain ⟨f, hopf, hf⟩ := h1orph op hop
          exact ⟨e, rfl, Or.inl ⟨f, hopf, hf⟩⟩
        · obtain ⟨fd, hopfd, hfd⟩ := h2orph op hop
          exact ⟨e, rfl, Or.inr ⟨fd, hopfd, hfd⟩⟩

theorem containsIffMem (l : List String) (a : String) :
    l.contains a = true ↔ a ∈ l := List.elem_iff

theorem cleanupFold_active (ks : List String) : ∀ acc : RS,
    (ks.foldl (fun a k => if a.active.contains k then a else reapOrphan a k)
      acc).active = acc.active := by
  induction ks with
  | nil => intro acc; rfl
  | cons k rest ih =>
    intro acc
    rw [List.foldl_cons]
    by_cases hk : acc.active.contains k = true
    · rw [if_pos hk, ih]
    · rw [if_neg hk, ih, (reapOrphan_spec acc k).1]

theorem cleanupFold_preserve (ks : List String) : ∀ acc : RS,
    ∀ k, k ∈ acc.active →
    lookupKey (ks.foldl (fun a k' => if a.active.contains k' then a
      else reapOrphan a k') acc).st k = lookupKey acc.st k ∧
    lookupKey (ks.foldl (fun a k' => if a.active.contains k' then a
      else reapOrphan a k') acc).props.hashes k =
      lookupKey acc.props.hashes k := by
  induction ks with
  | nil => intro acc k _; exact ⟨rfl, rfl⟩
  | cons k' rest ih =>
    intro acc k hk
    rw [List.foldl_cons]
    by_cases hk' : acc.active.contains k' = true
    · rw [if_pos hk']
      exact ih acc k hk
    · rw [if_neg hk']
      have hkne : k ≠ k' := by
        intro hh
        rw [hh] at hk
        exact hk' ((containsIffMem _ _).mpr hk)
      obtain ⟨hspec1, _, hspec3, hspec4, _⟩ := reapOrphan_spec acc k'
      have hmem : k ∈ (reapOrphan acc k').active := by
        rw [hspec1]; exact hk
      obtain ⟨ih1, ih2⟩ := ih (reapOrphan acc k') k hmem
      exact ⟨by rw [ih1, hspec3 k hkne], by rw [ih2, hspec4 k hkne]⟩

theorem cleanupFold_none (ks : List String) : ∀ acc : RS, ∀ k,
    lookupKey acc.st k = none →
    lookupKey (ks.foldl (fun a k' => if a.active.contains k' then a
      else reapOrphan a k') acc).st k = none := by
  induction ks with
  | nil => intro acc k h; exact h
  | cons k' rest ih =>
    intro acc k h
    rw [List.foldl_cons]
    by_cases hk' : acc.active.contains k' = true
    · rw [if_pos hk']
      exact ih acc k h
    · rw [if_neg hk']
      refine ih (reapOrphan acc k') k ?_
      obtain ⟨_, hself, hother, _⟩ := reapOrphan_spec acc k'
      by_cases hkk : k' = k
      · subst hkk
        exact hself
      · rw [hother k (fun hh => hkk hh.symm)]
        exact h

theorem cleanupFold_erase (ks : List String) : ∀ acc : RS, ∀ k,
    k ∈ ks → k ∉ acc.active →
    lookupKey (ks.foldl (fun a k' => if a.active.contains k' then a
      else reapOrphan a k') acc).st k = none := by
  induction ks with
  | nil => intro acc k h _; simp at h
  | cons k' rest ih =>
    intro acc k hmem hact
    rw [List.foldl_cons]
    rcases List.mem_cons.mp hmem with heq | hmem'
    · subst heq
      have hk' : ¬ acc.active.contains k = true := by
        intro hc
        exact hact ((containsIffMem _ _).mp hc)
      rw [if_neg hk']
      exact cleanupFold_none rest (reapOrphan acc k) k
        (reapOrphan_spec acc k).2.1
    · by_cases hk' : acc.active.contains k' = true
      · rw [if_pos hk']
        exact ih acc k hmem' hact
      · rw [if_neg hk']
        refine ih (reapOrphan acc k') k hmem' ?_
        rw [(reapOrphan_spec acc k').1]
        exact hact

theorem cleanupFold_identity (ks : List String) : ∀ acc : RS,
    (∀ k, k ∈ ks → k ∈ acc.active) →
    ks.foldl (fun a k' => if a.active.contains k' then a
      else reapOrphan a k') acc = acc := by
  induction ks with
  | nil => intro acc _; rfl
  | cons k' rest ih =>
    intro acc h
    rw [List.foldl_cons]
    have hk' : acc.active.contains k' = true :=
      (containsIffMem _ _).mpr (h k' (List.mem_cons_self _ _))
    rw [if_pos hk']
    exact ih acc (fun k hk => h k (List.mem_cons_of_mem _ hk))

theorem cleanupFold_frame (ks : List String) : ∀ acc : RS,
    driveMono acc.drive
      (ks.foldl (fun a k' => if a.active.contains k' then a
        else reapOrphan a k') acc).drive ∧
    (ks.foldl (fun a k' => if a.active.contains k' then a
      else reapOrphan a k') acc).props.lock = acc.props.lock ∧
    (ks.foldl (fun a k' => if a.active.contains k' then a
      else reapOrphan a k') acc).props.stateJson = acc.props.stateJson := by
  induction ks with
  | nil => intro acc; exact ⟨driveMono_refl _, rfl, rfl⟩
  | cons k' rest ih =>
    intro acc
    rw [List.foldl_cons]
    by_cases hk' : acc.active.contains k' = true
    · rw [if_pos hk']
      exact ih acc
    · rw [if_neg hk']
      obtain ⟨hmono, hlock, hjson⟩ := ih (reapOrphan acc k')
      obtain ⟨_, _, _, _, hmono', hlock', hjson', _⟩ :=
        reapOrphan_spec acc k'
      exact ⟨driveMono_trans hmono' hmono, hlock.trans hlock',
        hjson.trans hjson'⟩

theorem cleanupFold_ops (rs : RS) (ks : List String) : ∀ acc : RS,
    (∀ j, lookupKey acc.st j = lookupKey rs.st j ∨
      lookupKey acc.st j = none) →
    acc.active = rs.active →
    ∃ new, (ks.foldl (fun a k' => if a.active.contains k' then a
      else reapOrphan a k') acc).ops = acc.ops ++ new ∧
      ∀ op ∈ new, orphanTrash rs.st rs.active op := by
  induction ks with
  | nil => intro acc _ _; exact ⟨[], by simp, by simp⟩
  | cons k' rest ih =>
    intro acc hsub hact
    rw [List.foldl_cons]
    by_cases hk' : acc.active.contains k' = true
    · rw [if_pos hk']
      exact ih acc hsub hact
    · rw [if_neg hk']
      obtain ⟨rspec1, rspec2, rspec3, _, _, _, _, new1, hops1, horph1⟩ :=
        reapOrphan_spec acc k'
      have hsub' : ∀ j, lookupKey (reapOrphan acc k').st j =
          lookupKey rs.st j ∨ lookupKey (reapOrphan acc k').st j = none := by
        intro j
        by_cases hj : k' = j
        · subst hj
          exact Or.inr rspec2
        · rw [rspec3 j (fun hh => hj hh.symm)]
          exact hsub j
      have hact' : (reapOrphan acc k').active = rs.active := by
        rw [rspec1, hact]
      obtain ⟨new2, hops2, horph2⟩ := ih (reapOrphan acc k') hsub' hact'
      refine ⟨new1 ++ new2, by rw [hops2, hops1, List.append_assoc], ?_⟩
      intro op hop
      rcases List.mem_append.mp hop with hop | hop
      · obtain ⟨e, he, hcase⟩ := horph1 op hop
        have hrs : lookupKey rs.st k' = some e := by
          rcases hsub k' with hh | hh
          · rw [← hh]; exact he
          · rw [hh] at he; exact absurd he (by simp)
        have hk'act : k' ∉ rs.active := by
          rw [← hact]
          intro hmem
          exact hk' ((containsIffMem _ _).mpr hmem)
        rcases hcase with ⟨f, hopf, hf⟩ | ⟨fd, hopfd, hfd⟩
        · rw [hopf]
          exact ⟨k', e, hrs, hk'act, hf⟩
        · rw [hopfd]
          exact ⟨k', e, hrs, hk'act, hfd⟩
      · exact horph2 op hop

theorem cleanupOrphans_active (rs : RS) :
    (cleanupOrphans rs).active = rs.active :=
  cleanupFold_active _ rs

theorem cleanupOrphans_preserve (rs : RS) (k : String)
    (h : k ∈ rs.active) :
    lookupKey (cleanupOrphans rs).st k = lookupKey rs.st k ∧
    lookupKey (cleanupOrphans rs).props.hashes k =
      lookupKey rs.props.hashes k :=
  cleanupFold_preserve _ rs k h

theorem cleanupOrphans_nonactive (rs : RS) (k : String)
    (h : k ∉ rs.active) :
    lookupKey (cleanupOrphans rs).st k = none := by
  cases hl : lookupKey rs.st k with
  | none => exact cleanupFold_none _ rs k hl
  | some e =>
    refine cleanupFold_erase _ rs k ?_ h
    exact mem_keys_of_lookupKey_isSome _ (by rw [hl]; rfl)

theorem cleanupOrphans_identity (rs : RS)
    (h : ∀ k, (lookupKey rs.st k).isSome → k ∈ rs.active) :
    cleanupOrphans rs = rs := by
  refine cleanupFold_identity _ rs ?_
  intro k hk
  exact h k (lookupKey_isSome_of_mem_keys _ hk)

theorem cleanupOrphans_frame (rs : RS) :
    driveMono rs.drive (cleanupOrphans rs).drive ∧
    (cleanupOrphans rs).props.lock = rs.props.lock ∧
    (cleanupOrphans rs).props.stateJson = rs.props.stateJson :=
  cleanupFold_frame _ rs

theorem cleanupOrphans_ops (rs : RS) :
    ∃ new, (cleanupOrphans rs).ops = rs.ops ++ new ∧
      ∀ op ∈ new, orphanTrash rs.st rs.active op :=
  cleanupFold_ops rs _ rs (fun _ => Or.inl rfl) rfl

/-! ### Run-level lemmas -/

theorem curName_nil : curName [] = "ROOT" := rfl

mutual

theorem visitedTab_eq_tabIds (t : Tab) (h : allDocTab t) :
    visitedTab t = tabIds t := by
  rw [visitedTab_def, tabIds_def,
    visitedForest_eq_forestIds t.children ((allDocTab_def t).mp h).2]
termination_by sizeOf t
decreasing_by
  all_goals cases t
  all_goals simp [Tab.children]

theorem visitedForest_eq_forestIds (ts : List Tab) (h : allDocForest ts) :
    visitedForest ts = forestIds ts := by
  match ts with
  | [] => rfl
  | t :: rest =>
    rw [allDocForest] at h
    rw [visitedForest, forestIds, visitedTab_eq_tabIds t h.1,
      visitedForest_eq_forestIds rest h.2]
    rw [if_pos ((allDocTab_def t).mp h.1).1]
termination_by sizeOf ts
decreasing_by
  all_goals simp
  all_goals omega

end

/-- What one non-locked run guarantees: the lock is released, the final
state is persisted, the whole forest ends reconciled against the final
context, and every persisted entry belongs to a visited id. -/
theorem proceedRun_post (renderer : String → Nat → FetchResp) (now : Nat)
    (tabs : List Tab) (root : String) (drive : Drive) (props : Props)
    (hr : renderer200 renderer) (hdoc : allDocForest tabs)
    (hnd : (forestIds tabs).Nodup) :
    (proceedRun renderer now tabs root drive props).props.lock = none ∧
    (proceedRun renderer now tabs root drive props).props.stateJson =
      some (proceedRun renderer now tabs root drive props).st ∧
    forestSynced (proceedRun renderer now tabs root drive props).st
      (proceedRun renderer now tabs root drive props).props.hashes
      (proceedRun renderer now tabs root drive props).drive tabs "ROOT" ∧
    (∀ k, (lookupKey (proceedRun renderer now tabs root drive
      props).st k).isSome → k ∈ visitedForest tabs) := by
  unfold proceedRun runBody
  dsimp only
  have hsyncB := processForest_sync renderer tabs root []
    { st := props.stateJson.getD []
      active := []
      drive := drive
      props := { props with lock := some now }
      ops := [.setLock now] } hr hdoc hnd
  obtain ⟨_, factB⟩ := processForest_frame renderer tabs root []
    { st := props.stateJson.getD []
      active := []
      drive := drive
      props := { props with lock := some now }
      ops := [.setLock now] }
  generalize hRB : processForest renderer tabs root []
    { st := props.stateJson.getD []
      active := []
      drive := drive
      props := { props with lock := some now }
      ops := [.setLock now] } = rB at hsyncB factB ⊢
  rw [curName_nil] at hsyncB
  have hactive : rB.1.active = visitedForest tabs := by
    rw [factB]
    simp
  obtain ⟨cmono, clock, cjson⟩ := cleanupOrphans_frame rB.1
  have hsyncC : forestSynced (cleanupOrphans rB.1).st
      (cleanupOrphans rB.1).props.hashes (cleanupOrphans rB.1).drive tabs
      "ROOT" := by
    refine forestSynced_preserve tabs "ROOT" hsyncB
      (fun k hk => ?_) (fun k hk => ?_) cmono
    · exact (cleanupOrphans_preserve rB.1 k
        (by rw [hactive, visitedForest_eq_forestIds tabs hdoc]; exact hk)).1
    · exact (cleanupOrphans_preserve rB.1 k
        (by rw [hactive, visitedForest_eq_forestIds tabs hdoc]; exact hk)).2
  have hkeysC : ∀ k, (lookupKey (cleanupOrphans rB.1).st k).isSome →
      k ∈ visitedForest tabs := by
    intro k hk
    by_contra hmem
    have : k ∉ rB.1.active := by
      rw [hactive]
      exact hmem
    rw [cleanupOrphans_nonactive rB.1 k this] at hk
    simp at hk
  exact ⟨rfl, rfl, hsyncC, hkeysC⟩

/-- A run started on a fully reconciled world performs no work: its
whole trace is lock-set, final state save, lock-release. -/
theorem proceedRun_silent (renderer : String → Nat → FetchResp) (now : Nat)
    (tabs : List Tab) (root : String) (drive : Drive) (props : Props)
    (hsync : forestSynced (props.stateJson.getD []) props.hashes drive
      tabs "ROOT")
    (hkeys : ∀ k, (lookupKey (props.stateJson.getD []) k).isSome →
      k ∈ visitedForest tabs) :
    (proceedRun renderer now tabs root drive props).ops =
      [Op.setLock now, Op.saveState, Op.releaseLock] := by
  unfold proceedRun runBody
  dsimp only
  rw [processForest_silent renderer tabs root []
    { st := props.stateJson.getD []
      active := []
      drive := drive
      props := { props with lock := some now }
      ops := [.setLock now] } hsync]
  dsimp only
  rw [cleanupOrphans_identity _ (by
    intro k hk
    simp only [List.nil_append]
    exact hkeys k hk)]
  rfl

/-- Every non-locked run records the lock overwrite with its own
timestamp as its first operation. -/
theorem proceedRun_ops_head (renderer : String → Nat → FetchResp)
    (now : Nat) (tabs : List Tab) (root : String) (drive : Drive)
    (props : Props) :
    (proceedRun renderer now tabs root drive props).ops.head? =
      some (Op.setLock now) := by
  unfold proceedRun runBody
  dsimp only
  obtain ⟨⟨_, _, _, _, n1, hops1⟩, _⟩ := processForest_frame renderer tabs
    root []
    { st := props.stateJson.getD []
      active := []
      drive := drive
      props := { props with lock := some now }
      ops := [.setLock now] }
  generalize hRB : processForest renderer tabs root []
    { st := props.stateJson.getD []
      active := []
      drive := drive
      props := { props with lock := some now }
      ops := [.setLock now] } = rB at hops1 ⊢
  obtain ⟨n2, hops2, _⟩ := cleanupOrphans_ops rB.1
  rw [hops2, hops1]
  simp

/-! ### Further auxiliary lemmas -/

theorem reapFile_folders (rs : RS) (e : TrackedEntry) :
    (reapFile rs e).drive.folders = rs.drive.folders := by
  unfold reapFile
  cases hf : e.fileId with
  | none => rfl
  | some f =>
    dsimp only
    cases hl : lookupKey rs.drive.files f with
    | none => rfl
    | some df => exact modFile_folders _ _ _

theorem reapOrphan_noentry (rs : RS) (tabId : String)
    (h : lookupKey rs.st tabId = none) : reapOrphan rs tabId = rs := by
  unfold reapOrphan
  rw [h]

theorem cleanupFold_solo_post (id : String) (ks : List String) :
    ∀ acc : RS, (∀ j ∈ ks, j ≠ id → j ∈ acc.active) →
    lookupKey acc.st id = none →
    ks.foldl (fun a k' => if a.active.contains k' then a
      else reapOrphan a k') acc = acc := by
  induction ks with
  | nil => intro acc _ _; rfl
  | cons k rest ih =>
    intro acc hmem hnone
    rw [List.foldl_cons]
    by_cases hk : acc.active.contains k = true
    · rw [if_pos hk]
      exact ih acc (fun j hj => hmem j (List.mem_cons_of_mem _ hj)) hnone
    · rw [if_neg hk]
      have hkid : k = id := by
        by_contra hne
        exact hk ((containsIffMem _ _).mpr
          (hmem k (List.mem_cons_self _ _) hne))
      subst hkid
      rw [reapOrphan_noentry acc k hnone]
      exact ih acc (fun j hj => hmem j (List.mem_cons_of_mem _ hj)) hnone

theorem cleanupFold_solo (id : String) (ks : List String) : ∀ acc : RS,
    (∀ j ∈ ks, j ≠ id → j ∈ acc.active) → id ∉ acc.active →
    (lookupKey acc.st id).isSome →
    (id ∈ ks →
      ks.foldl (fun a k' => if a.active.contains k' then a
        else reapOrphan a k') acc = reapOrphan acc id) ∧
    (id ∉ ks →
      ks.foldl (fun a k' => if a.active.contains k' then a
        else reapOrphan a k') acc = acc) := by
  induction ks with
  | nil =>
    intro acc _ _ _
    exact ⟨fun h => absurd h (by simp), fun _ => rfl⟩
  | cons k rest ih =>
    intro acc hmem hact hsome
    rw [List.foldl_cons]
    by_cases hkid : k = id
    · subst hkid
      have hk : ¬ acc.active.contains k = true := by
        intro hc
        exact hact ((containsIffMem _ _).mp hc)
      rw [if_neg hk]
      obtain ⟨ra, rnone, _⟩ := reapOrphan_spec acc k
      have hpost := cleanupFold_solo_post k rest (reapOrphan acc k)
        (fun j hj hne => by
          rw [ra]
          exact hmem j (List.mem_cons_of_mem _ hj) hne) rnone
      exact ⟨fun _ => hpost, fun hnot => absurd (List.mem_cons_self _ _) hnot⟩
    · have hk : acc.active.contains k = true :=
        (containsIffMem _ _).mpr (hmem k (List.mem_cons_self _ _) hkid)
      rw [if_pos hk]
      have := ih acc (fun j hj => hmem j (List.mem_cons_of_mem _ hj))
        hact hsome
      constructor
      · intro hmemin
        rcases List.mem_cons.mp hmemin with heq | hmemrest
        · exact absurd heq.symm hkid
        · exact this.1 hmemrest
      · intro hnot
        exact this.2 (fun hh => hnot (List.mem_cons_of_mem _ hh))

theorem cleanupOrphans_solo (rs : RS) (id : String) (e : TrackedEntry)
    (hentry : lookupKey rs.st id = some e) (hact : id ∉ rs.active)
    (hsolo : ∀ p ∈ rs.st, p.1 ≠ id → p.1 ∈ rs.active) :
    cleanupOrphans rs = reapOrphan rs id := by
  have hidmem : id ∈ rs.st.map Prod.fst :=
    mem_keys_of_lookupKey_isSome _ (by rw [hentry]; rfl)
  refine (cleanupFold_solo id (rs.st.map (·.1)) rs ?_ hact
    (by rw [hentry]; rfl)).1 hidmem
  intro j hj hne
  rcases List.mem_map.mp hj with ⟨p, hp, rfl⟩
  exact hsolo p hp hne

theorem visitedForest_nondoc (ts : List Tab)
    (h : ∀ c ∈ ts, c.docType = false) : visitedForest ts = [] := by
  induction ts with
  | nil => rfl
  | cons t rest ih =>
    rw [visitedForest]
    have hdt : t.docType = false := h t (List.mem_cons_self _ _)
    rw [if_neg (by rw [hdt]; simp)]
    simp [ih (fun c hc => h c (List.mem_cons_of_mem _ hc))]

theorem processForest_nondoc (renderer : String → Nat → FetchResp)
    (ts : List Tab) (pf : String) (path : List String) (rs : RS)
    (h : ∀ c ∈ ts, c.docType = false) :
    processForest renderer ts pf path rs = (rs, 0) := by
  induction ts with
  | nil => rw [processForest]
  | cons t rest ih =>
    rw [processForest]
    have hdt : t.docType = false := h t (List.mem_cons_self _ _)
    rw [if_neg (by rw [hdt]; simp)]
    dsimp only
    rw [ih (fun c hc => h c (List.mem_cons_of_mem _ hc))]
    rfl

theorem nodeCore_entry (renderer : String → Nat → FetchResp)
    (tabId tabTitle hv cur pf : String) (e0 : TrackedEntry) (rs2 : RS)
    (hentry : lookupKey rs2.st tabId = some e0) :
    lookupKey (nodeCore renderer tabId tabTitle hv cur pf e0 rs2).1.st
      tabId = some (nodeCore renderer tabId tabTitle hv cur pf e0
        rs2).2.1 := by
  unfold nodeCore
  dsimp only
  have rnE := renameStep_entry rs2 tabId tabTitle e0 hentry
  generalize hR3 : renameStep rs2 tabId tabTitle e0 = r3 at rnE ⊢
  have sh := selfHealStep_spec r3.1 tabId r3.2.1
  generalize hR4 : selfHealStep r3.1 tabId r3.2.1 = r4 at sh ⊢
  have shE := sh.2.2.2.2.2.1 rnE
  have exE := exportStep_entry renderer tabId tabTitle pf cur hv
    (!(lookupKey r3.1.props.hashes tabId == some hv)) r4.2.2
    (e0.fileId.isSome && !(e0.parentName == some cur)) r4.2.1 r4.1 shE
  generalize hR5 : exportStep renderer tabId tabTitle pf cur hv
    (!(lookupKey r3.1.props.hashes tabId == some hv)) r4.2.2
    (e0.fileId.isSome && !(e0.parentName == some cur)) r4.2.1 r4.1 = r5
    at exE ⊢
  by_cases hd : (r3.2.2 || r5.2.2.1) = true
  · rw [if_pos hd]
    rw [(saveStateNow_spec r5.1).1]
    exact exE
  · rw [if_neg hd]
    exact exE

theorem preChildren_entry (renderer : String → Nat → FetchResp) (t : Tab)
    (pf : String) (path : List String) (rs : RS) :
    lookupKey (preChildren renderer t pf path rs).1.st t.id =
      some (preChildren renderer t pf path rs).2.1 := by
  cases h : lookupKey rs.st t.id with
  | some v =>
    rw [(preChildren_cases renderer t pf path rs).1 v h]
    exact nodeCore_entry renderer t.id t.title (getTabContentHash t)
      (curName path) pf v { rs with active := rs.active ++ [t.id] } h
  | none =>
    rw [(preChildren_cases renderer t pf path rs).2 h]
    refine nodeCore_entry renderer t.id t.title (getTabContentHash t)
      (curName path) pf ⟨none, none, t.title, none⟩
      (putEntry { rs with active := rs.active ++ [t.id] } t.id
        ⟨none, none, t.title, none⟩) ?_
    simp only [putEntry]
    exact lookupKey_setKey_self _ _ _

mutual

theorem processTab_keys (renderer : String → Nat → FetchResp) (t : Tab)
    (pf : String) (path : List String) (rs : RS) :
    (∀ k, (lookupKey rs.st k).isSome →
      (lookupKey (processTab renderer t pf path rs).1.st k).isSome) ∧
    (∀ k, k ∈ visitedTab t →
      (lookupKey (processTab renderer t pf path rs).1.st k).isSome) := by
  rw [processTab]
  dsimp only
  obtain ⟨pst, _, _, _, _, _⟩ := preChildren_context renderer t pf path rs
  have pentry := preChildren_entry renderer t pf path rs
  generalize hR6 : preChildren renderer t pf path rs = r6 at pst pentry ⊢
  have hkeep6 : ∀ k, (lookupKey rs.st k).isSome →
      (lookupKey r6.1.st k).isSome := by
    intro k hk
    by_cases hkt : k = t.id
    · subst hkt
      rw [pentry]
      rfl
    · rw [pst k hkt]
      exact hk
  by_cases hemp : t.children.isEmpty
  · rw [if_pos hemp]
    have hnil : t.children = [] := List.isEmpty_iff.mp hemp
    refine ⟨hkeep6, ?_⟩
    intro k hk
    rw [visitedTab_def, hnil] at hk
    simp [visitedForest] at hk
    subst hk
    rw [pentry]
    rfl
  · rw [if_neg hemp]
    dsimp only
    obtain ⟨est, _, _, _, _, _⟩ :=
      ensureChildFolder_context r6.2.1 r6.2.2.1 (curName path) t.title t.id
        pf r6.1
    obtain ⟨e', hent', _⟩ :=
      ensureChildFolder_entry r6.2.1 r6.2.2.1 (curName path) t.title t.id
        pf r6.1 pentry
    generalize hR9 : ensureChildFolder r6.2.1 r6.2.2.1 (curName path)
      t.title t.id pf r6.1 = r9 at est hent' ⊢
    have hkeep9 : ∀ k, (lookupKey r6.1.st k).isSome →
        (lookupKey r9.1.st k).isSome := by
      intro k hk
      by_cases hkt : k = t.id
      · subst hkt
        rw [hent']
        rfl
      · rw [est k hkt]
        exact hk
    obtain ⟨fkeep, fvis⟩ :=
      processForest_keys renderer t.children r9.2 (path ++ [t.title]) r9.1
    generalize hR10 : processForest renderer t.children r9.2
      (path ++ [t.title]) r9.1 = r10 at fkeep fvis ⊢
    refine ⟨fun k hk => fkeep k (hkeep9 k (hkeep6 k hk)), ?_⟩
    intro k hk
    rw [visitedTab_def] at hk
    rcases List.mem_cons.mp hk with heq | hmem
    · subst heq
      exact fkeep _ (hkeep9 _ (by rw [pentry]; rfl))
    · exact fvis k hmem
termination_by sizeOf t
decreasing_by
  all_goals cases t
  all_goals simp [Tab.children]

theorem processForest_keys (renderer : String → Nat → FetchResp)
    (ts : List Tab) (pf : String) (path : List String) (rs : RS) :
    (∀ k, (lookupKey rs.st k).isSome →
      (lookupKey (processForest renderer ts pf path rs).1.st k).isSome) ∧
    (∀ k, k ∈ visitedForest ts →
      (lookupKey (processForest renderer ts pf path rs).1.st k).isSome) := by
  match ts with
  | [] =>
    rw [processForest]
    exact ⟨fun k hk => hk, fun k hk => by simp [visitedForest] at hk⟩
  | t :: rest =>
    rw [processForest]
    dsimp only
    by_cases hdt : t.docType = true
    · rw [if_pos hdt]
      obtain ⟨tkeep, tvis⟩ := processTab_keys renderer t pf path rs
      generalize hR1 : processTab renderer t pf path rs = r1
        at tkeep tvis ⊢
      obtain ⟨rkeep, rvis⟩ := processForest_keys renderer rest pf path r1.1
      generalize hR2 : processForest renderer rest pf path r1.1 = r2
        at rkeep rvis ⊢
      refine ⟨fun k hk => rkeep k (tkeep k hk), ?_⟩
      intro k hk
      rw [visitedForest] at hk
      rw [if_pos hdt] at hk
      rcases List.mem_append.mp hk with hmem | hmem
      · exact rkeep k (tvis k hmem)
      · exact rvis k hmem
    · rw [if_neg hdt]
      dsimp only
      obtain ⟨rkeep, rvis⟩ := processForest_keys renderer rest pf path rs
      refine ⟨rkeep, ?_⟩
      intro k hk
      rw [visitedForest] at hk
      have hdf : t.docType = false := by
        cases hb : t.docType
        · rfl
        · exact absurd hb hdt
      rw [hdf] at hk
      simp at hk
      exact rvis k hk
termination_by sizeOf ts
decreasing_by
  all_goals simp
  all_goals omega

end

/-! ### Claim theorems -/

/-- C1.  Idempotence of reconciliation: for every source tree (all tabs
of the recognized type, ids distinct), running `exportUpdatedTabsToPDF`
a second time immediately after a completed run, with no change to any
node's id, title, content, or parent, performs zero exports (the
Exporter Gateway is never invoked — no fetch, no file creation) and
zero placement operations (no move, add-to-parent, remove-from-parent,
or folder creation) on the second run: the second run's whole trace is
lock-set, final state save, lock-release. -/
theorem claim_C1 (renderer : String → Nat → FetchResp) (now1 now2 : Nat)
    (tabs : List Tab) (root : String) (drive : Drive) (props : Props)
    (hr : renderer200 renderer) (hdoc : allDocForest tabs)
    (hnd : (forestIds tabs).Nodup) (hlock : props.lock = none) :
    (exportUpdatedTabsToPDF renderer now2 tabs root
      (exportUpdatedTabsToPDF renderer now1 tabs root drive props).drive
      (exportUpdatedTabsToPDF renderer now1 tabs root drive
        props).props).ops =
      [Op.setLock now2, Op.saveState, Op.releaseLock] ∧
    ∀ op ∈ (exportUpdatedTabsToPDF renderer now2 tabs root
      (exportUpdatedTabsToPDF renderer now1 tabs root drive props).drive
      (exportUpdatedTabsToPDF renderer now1 tabs root drive
        props).props).ops,
      isExportOp op = false ∧ isPlacementOp op = false := by
  have h1 : exportUpdatedTabsToPDF renderer now1 tabs root drive props =
      proceedRun renderer now1 tabs root drive props := by
    unfold exportUpdatedTabsToPDF
    rw [hlock]
    rfl
  obtain ⟨plock, pjson, psync, pkeys⟩ :=
    proceedRun_post renderer now1 tabs root drive props hr hdoc hnd
  rw [h1]
  have h2 : exportUpdatedTabsToPDF renderer now2 tabs root
      (proceedRun renderer now1 tabs root drive props).drive
      (proceedRun renderer now1 tabs root drive props).props =
      proceedRun renderer now2 tabs root
        (proceedRun renderer now1 tabs root drive props).drive
        (proceedRun renderer now1 tabs root drive props).props := by
    unfold exportUpdatedTabsToPDF
    rw [plock]
    rfl
  rw [h2]
  have hops := proceedRun_silent renderer now2 tabs root
    (proceedRun renderer now1 tabs root drive props).drive
    (proceedRun renderer now1 tabs root drive props).props
    (by rw [pjson]; exact psync)
    (by rw [pjson]; exact pkeys)
  refine ⟨hops, ?_⟩
  intro op hop
  rw [hops] at hop
  simp only [List.mem_cons, List.mem_singleton] at hop
  rcases hop with rfl | rfl | rfl | h
  · exact ⟨rfl, rfl⟩
  · exact ⟨rfl, rfl⟩
  · exact ⟨rfl, rfl⟩
  · simp at h

/-- Witness for C1 at a concrete input: a one-tab tree, an
always-succeeding renderer, an empty initial world. -/
theorem claim_C1_witness :
    (exportUpdatedTabsToPDF (fun _ _ => .status 200) 5
      [Tab.mk "a" "A" "x" true []] "root"
      (exportUpdatedTabsToPDF (fun _ _ => .status 200) 0
        [Tab.mk "a" "A" "x" true []] "root" ⟨[], [], 0⟩
        ⟨none, none, [], none⟩).drive
      (exportUpdatedTabsToPDF (fun _ _ => .status 200) 0
        [Tab.mk "a" "A" "x" true []] "root" ⟨[], [], 0⟩
        ⟨none, none, [], none⟩).props).ops =
      [Op.setLock 5, Op.saveState, Op.releaseLock] :=
  (claim_C1 (fun _ _ => .status 200) 0 5 [Tab.mk "a" "A" "x" true []]
    "root" ⟨[], [], 0⟩ ⟨none, none, [], none⟩ (fun _ _ => rfl)
    ⟨⟨rfl, trivial⟩, trivial⟩ (by decide) rfl).1

/-- C2.  Bounded retry with exponential backoff: when the renderer
answers 429 on every attempt, `exportTabToPDF` performs exactly
`MAX_RETRIES + 1` fetches in total and returns null, and the sleep
recorded after failed attempt `i` (before the next retry) lasts exactly
`INITIAL_BACKOFF * 2 ^ i` milliseconds. -/
theorem claim_C2 (renderer : String → Nat → FetchResp)
    (tabId tabTitle folderId : String) (drive : Drive)
    (h : ∀ i, renderer tabId i = .status 429) :
    (exportTabToPDF renderer tabId tabTitle folderId drive).file = none ∧
    fetchCount (exportTabToPDF renderer tabId tabTitle folderId
      drive).ops = MAX_RETRIES + 1 ∧
    sleepTimes (exportTabToPDF renderer tabId tabTitle folderId
      drive).ops = (List.range (MAX_RETRIES + 1)).map
        (fun i => INITIAL_BACKOFF * 2 ^ i) := by
  unfold exportTabToPDF
  rw [exportLoop_rate (renderer tabId) tabId (tabTitle ++ ".pdf") folderId
    drive h (MAX_RETRIES + 1) 0]
  refine ⟨rfl, ?_, ?_⟩
  · simp [MAX_RETRIES, rateOps, fetchCount]
  · simp [MAX_RETRIES, rateOps, sleepTimes, INITIAL_BACKOFF]
    decide

/-- Witness for C2 at a concrete input. -/
theorem claim_C2_witness :
    (exportTabToPDF (fun _ _ => .status 429) "x" "T" "root"
      ⟨[], [], 0⟩).file = none ∧
    fetchCount (exportTabToPDF (fun _ _ => .status 429) "x" "T" "root"
      ⟨[], [], 0⟩).ops = MAX_RETRIES + 1 ∧
    sleepTimes (exportTabToPDF (fun _ _ => .status 429) "x" "T" "root"
      ⟨[], [], 0⟩).ops = (List.range (MAX_RETRIES + 1)).map
        (fun i => INITIAL_BACKOFF * 2 ^ i) :=
  claim_C2 (fun _ _ => .status 429) "x" "T" "root" ⟨[], [], 0⟩
    (fun _ => rfl)

/-- C3.  Lock exclusivity and stale takeover: with a persisted lock
timestamp younger than `LOCK_TIMEOUT_MS`, a second invocation returns
immediately, leaving Drive and the properties untouched and performing
no operation; when the stored lock's age is at least the timeout, the
invocation proceeds (it equals the non-locked run) and its first
recorded operation overwrites the lock with its own timestamp. -/
theorem claim_C3 (renderer : String → Nat → FetchResp) (now t : Nat)
    (tabs : List Tab) (root : String) (drive : Drive) (props : Props)
    (hlock : props.lock = some t) :
    (now - t < LOCK_TIMEOUT_MS →
      exportUpdatedTabsToPDF renderer now tabs root drive props =
        ⟨[], [], drive, props, []⟩) ∧
    (LOCK_TIMEOUT_MS ≤ now - t →
      exportUpdatedTabsToPDF renderer now tabs root drive props =
        proceedRun renderer now tabs root drive props ∧
      (exportUpdatedTabsToPDF renderer now tabs root drive
        props).ops.head? = some (Op.setLock now)) := by
  constructor
  · intro h
    unfold exportUpdatedTabsToPDF
    rw [hlock]
    simp [h]
  · intro h
    have hnot : ¬ (now - t < LOCK_TIMEOUT_MS) := by omega
    have heq : exportUpdatedTabsToPDF renderer now tabs root drive props =
        proceedRun renderer now tabs root drive props := by
      unfold exportUpdatedTabsToPDF
      rw [hlock]
      simp [hnot]
    refine ⟨heq, ?_⟩
    rw [heq]
    exact proceedRun_ops_head renderer now tabs root drive props

/-- Witness for C3: both branches at concrete inputs (a fresh lock at
time 0 checked at time 0; a lock at time 0 checked after the timeout). -/
theorem claim_C3_witness :
    (exportUpdatedTabsToPDF (fun _ _ => .status 200) 0 [] "root"
      ⟨[], [], 0⟩ ⟨some 0, none, [], none⟩ =
        ⟨[], [], ⟨[], [], 0⟩, ⟨some 0, none, [], none⟩, []⟩) ∧
    (exportUpdatedTabsToPDF (fun _ _ => .status 200) LOCK_TIMEOUT_MS []
      "root" ⟨[], [], 0⟩ ⟨some 0, none, [], none⟩).ops.head? =
        some (Op.setLock LOCK_TIMEOUT_MS) :=
  ⟨(claim_C3 (fun _ _ => .status 200) 0 0 [] "root" ⟨[], [], 0⟩
      ⟨some 0, none, [], none⟩ rfl).1 (by decide),
    ((claim_C3 (fun _ _ => .status 200) LOCK_TIMEOUT_MS 0 [] "root"
      ⟨[], [], 0⟩ ⟨some 0, none, [], none⟩ rfl).2 (by decide)).2⟩

/-- C10.  Forced resync bypasses the run lock: `forceExportAllTabs`
deletes every persisted property (including the lock key) before
invoking `exportUpdatedTabsToPDF`, so the inner lock check finds no
stored lock, the locked-early-return branch is unreachable, and the
forced run proceeds — it equals the non-locked run on empty properties,
and sets its own lock first — even when the incoming properties hold a
live (non-stale) lock. -/
theorem claim_C10 (renderer : String → Nat → FetchResp) (now : Nat)
    (tabs : List Tab) (root : String) (drive : Drive) (props : Props) :
    forceExportAllTabs renderer now tabs root drive props =
      proceedRun renderer now tabs root drive emptyProps ∧
    (forceExportAllTabs renderer now tabs root drive props).ops.head? =
      some (Op.setLock now) := by
  have heq : forceExportAllTabs renderer now tabs root drive props =
      proceedRun renderer now tabs root drive emptyProps := by
    unfold forceExportAllTabs exportUpdatedTabsToPDF emptyProps
    rfl
  refine ⟨heq, ?_⟩
  rw [heq]
  exact proceedRun_ops_head renderer now tabs root drive emptyProps

/-- C4.  Export-failure atomicity: when the gateway returns null on an
export attempt, the node's tracked state is left exactly as before the
attempt — entry (fileId, title, parentName), fingerprint store, state
object and Drive unchanged, the step does not mark the state dirty (so
it triggers no save) and does not increment the export count; only the
gateway's own fetch/backoff trace is appended.  Moreover the gateway
cannot escalate a failure: whenever no attempt in the budget answers
200, it returns null rather than throwing. -/
theorem claim_C4 (renderer : String → Nat → FetchResp)
    (tabId tabTitle parentFolderId currentParentName currentHash : String)
    (contentChanged fileExists structureChanged : Bool)
    (e : TrackedEntry) (rs : RS)
    (hcond : (contentChanged || !fileExists) = true)
    (hfail : (exportTabToPDF renderer tabId tabTitle parentFolderId
      rs.drive).file = none) :
    (exportStep renderer tabId tabTitle parentFolderId currentParentName
      currentHash contentChanged fileExists structureChanged e rs).2.1 =
      e ∧
    (exportStep renderer tabId tabTitle parentFolderId currentParentName
      currentHash contentChanged fileExists structureChanged e
      rs).2.2.1 = false ∧
    (exportStep renderer tabId tabTitle parentFolderId currentParentName
      currentHash contentChanged fileExists structureChanged e
      rs).2.2.2 = 0 ∧
    (exportStep renderer tabId tabTitle parentFolderId currentParentName
      currentHash contentChanged fileExists structureChanged e rs).1.st =
      rs.st ∧
    (exportStep renderer tabId tabTitle parentFolderId currentParentName
      currentHash contentChanged fileExists structureChanged e
      rs).1.props = rs.props ∧
    (exportStep renderer tabId tabTitle parentFolderId currentParentName
      currentHash contentChanged fileExists structureChanged e
      rs).1.drive = rs.drive ∧
    (exportStep renderer tabId tabTitle parentFolderId currentParentName
      currentHash contentChanged fileExists structureChanged e rs).1.ops =
      rs.ops ++ (exportTabToPDF renderer tabId tabTitle parentFolderId
        rs.drive).ops ∧
    (∀ (resp : Nat → FetchResp) (pdfName fId : String) (drv : Drive)
      (fuel i : Nat), (∀ k, k < fuel → resp (i + k) ≠ .status 200) →
      (exportLoop resp tabId pdfName fId drv i fuel).file = none) := by
  have heq := exportStep_fail renderer tabId tabTitle parentFolderId
    currentParentName currentHash contentChanged fileExists
    structureChanged e rs hcond hfail
  rw [heq]
  exact ⟨rfl, rfl, rfl, rfl, rfl, rfl, rfl,
    fun resp pdfName fId drv fuel i h =>
      exportLoop_no200_none resp tabId pdfName fId drv fuel i h⟩

/-- Witness for C4 at a concrete input: an always-rate-limited renderer
and a node with changed content. -/
theorem claim_C4_witness :
    (exportStep (fun _ _ => .status 429) "x" "T" "root" "ROOT" "h" true
      false false ⟨none, none, "T", none⟩
      ⟨[("x", ⟨none, none, "T", none⟩)], [], ⟨[], [], 0⟩,
        ⟨none, none, [], none⟩, []⟩).2.1 = ⟨none, none, "T", none⟩ ∧
    (exportStep (fun _ _ => .status 429) "x" "T" "root" "ROOT" "h" true
      false false ⟨none, none, "T", none⟩
      ⟨[("x", ⟨none, none, "T", none⟩)], [], ⟨[], [], 0⟩,
        ⟨none, none, [], none⟩, []⟩).2.2.1 = false ∧
    (exportStep (fun _ _ => .status 429) "x" "T" "root" "ROOT" "h" true
      false false ⟨none, none, "T", none⟩
      ⟨[("x", ⟨none, none, "T", none⟩)], [], ⟨[], [], 0⟩,
        ⟨none, none, [], none⟩, []⟩).2.2.2 = 0 ∧
    (exportStep (fun _ _ => .status 429) "x" "T" "root" "ROOT" "h" true
      false false ⟨none, none, "T", none⟩
      ⟨[("x", ⟨none, none, "T", none⟩)], [], ⟨[], [], 0⟩,
        ⟨none, none, [], none⟩, []⟩).1.props = ⟨none, none, [], none⟩ := by
  have h := claim_C4 (fun _ _ => .status 429) "x" "T" "root" "ROOT" "h"
    true false false ⟨none, none, "T", none⟩
    ⟨[("x", ⟨none, none, "T", none⟩)], [], ⟨[], [], 0⟩,
      ⟨none, none, [], none⟩, []⟩ rfl rfl
  exact ⟨h.1, h.2.1, h.2.2.1, h.2.2.2.2.1⟩

/-- C5 as stated is false on the code: after the reaper skips a
non-empty orphan folder, the orphan's id does NOT remain tracked in
persisted state — `cleanupOrphans` deletes the entry and the
fingerprint unconditionally.  Concretely, for a tracked node `x` whose
folder `d` still contains a file: the folder is left in place and
untrashed, yet `x` is gone from the state map. -/
theorem claim_C5_counterexample :
    folderIsEmpty orphanWorld.drive "d" = false ∧
    lookupKey (cleanupOrphans orphanWorld).drive.folders "d" =
      some ⟨"X", ["root"], false⟩ ∧
    lookupKey (cleanupOrphans orphanWorld).st "x" = none ∧
    lookupKey (cleanupOrphans orphanWorld).props.hashes "x" = none :=
  ⟨rfl, rfl, rfl, rfl⟩

/-- C5 (amended).  Orphan folder reaping: for every node id present in
state but absent from the active set after traversal (and the only such
orphan), its tracked folder is trashed only if the folder currently —
after the orphan's own PDF was trashed — contains zero files and zero
subfolders; if the folder is non-empty it is left in place untouched.
In both cases the entry and its fingerprint are removed from persisted
state, so the folder is NOT re-checked on a future run. -/
theorem claim_C5 (rs : RS) (id : String) (e : TrackedEntry) (d : String)
    (hentry : lookupKey rs.st id = some e)
    (hact : id ∉ rs.active)
    (hsolo : ∀ p ∈ rs.st, p.1 ≠ id → p.1 ∈ rs.active)
    (hfd : e.folderId = some d) :
    lookupKey (cleanupOrphans rs).st id = none ∧
    lookupKey (cleanupOrphans rs).props.hashes id = none ∧
    (folderIsEmpty (reapFile rs e).drive d = false →
      lookupKey (cleanupOrphans rs).drive.folders d =
        lookupKey rs.drive.folders d) ∧
    (folderIsEmpty (reapFile rs e).drive d = true →
      ∀ df, lookupKey rs.drive.folders d = some df →
        lookupKey (cleanupOrphans rs).drive.folders d =
          some { df with trashed := true }) := by
  rw [cleanupOrphans_solo rs id e hentry hact hsolo]
  unfold reapOrphan
  rw [hentry]
  dsimp only
  obtain ⟨f1st, _, f1props, _⟩ := reapFile_spec rs e
  have hfolders := reapFile_folders rs e
  unfold reapFolder
  rw [hfd]
  dsimp only
  rw [hfolders]
  cases hl : lookupKey rs.drive.folders d with
  | none =>
    refine ⟨?_, ?_, ?_, ?_⟩
    · exact lookupKey_eraseKey_self _ _
    · exact lookupKey_eraseKey_self _ _
    · intro _
      rw [hfolders, hl]
    · intro _ df hdf
      exact absurd hdf (by simp)
  | some df =>
    dsimp only
    by_cases hempty : folderIsEmpty (reapFile rs e).drive d = true
    · rw [if_pos hempty]
      refine ⟨?_, ?_, ?_, ?_⟩
      · exact lookupKey_eraseKey_self _ _
      · exact lookupKey_eraseKey_self _ _
      · intro hne
        rw [hempty] at hne
        simp at hne
      · intro _ df' hdf'
        injection hdf' with hdf'
        subst hdf'
        unfold modFolder
        rw [hfolders, hl]
        dsimp only
        exact lookupKey_setKey_self _ _ _
    · rw [if_neg hempty]
      refine ⟨?_, ?_, ?_, ?_⟩
      · exact lookupKey_eraseKey_self _ _
      · exact lookupKey_eraseKey_self _ _
      · intro _
        rw [hfolders, hl]
      · intro habs
        exact absurd habs hempty

/-- Witness for C5 (amended) at the concrete non-empty-folder input. -/
theorem claim_C5_witness :
    lookupKey (cleanupOrphans orphanWorld).st "x" = none ∧
    lookupKey (cleanupOrphans orphanWorld).drive.folders "d" =
      lookupKey orphanWorld.drive.folders "d" := by
  have h := claim_C5 orphanWorld "x" ⟨none, some "d", "X", some "ROOT"⟩ "d"
    rfl (by simp [orphanWorld]) (by decide) rfl
  exact ⟨h.1, h.2.2.1 rfl⟩

theorem modFolder_noent (d : Drive) (fd : String) (g : DFile → DFile)
    (h : lookupKey d.folders fd = none) : modFolder d fd g = d := by
  unfold modFolder
  rw [h]

/-- C6 as stated is false on the code: after a failed folder rename
(the tracked folder id has vanished from Drive) the stored title is
still overwritten with the current tab title, so on the next run the
title comparison succeeds and the rename is NOT re-attempted.
Concretely, for the tab `x` renamed from `Old` to `New` whose tracked
folder `dGone` is gone: the first pass records the failed attempt and
leaves Drive's folders untouched, yet updates the stored title to
`New`; feeding the persisted entry back into the rename block leaves
everything unchanged and emits no rename attempt. -/
theorem claim_C6_counterexample :
    lookupKey renameWorld.drive.folders "dGone" = none ∧
    (renameStep renameWorld "x" "New"
      ⟨some "f", some "dGone", "Old", some "ROOT"⟩).2.2 = true ∧
    Op.renameFolderOp "dGone" "New" ∈ (renameStep renameWorld "x" "New"
      ⟨some "f", some "dGone", "Old", some "ROOT"⟩).1.ops ∧
    (renameStep renameWorld "x" "New"
      ⟨some "f", some "dGone", "Old", some "ROOT"⟩).1.drive.folders = [] ∧
    (renameStep renameWorld "x" "New"
      ⟨some "f", some "dGone", "Old", some "ROOT"⟩).2.1.title = "New" ∧
    renameStep (renameStep renameWorld "x" "New"
        ⟨some "f", some "dGone", "Old", some "ROOT"⟩).1 "x" "New"
      (renameStep renameWorld "x" "New"
        ⟨some "f", some "dGone", "Old", some "ROOT"⟩).2.1 =
      ((renameStep renameWorld "x" "New"
          ⟨some "f", some "dGone", "Old", some "ROOT"⟩).1,
        (renameStep renameWorld "x" "New"
          ⟨some "f", some "dGone", "Old", some "ROOT"⟩).2.1, false) :=
  ⟨rfl, rfl, by decide, rfl, rfl, rfl⟩

/-- C6 (amended).  Rename-failure swallowing without retry: when the
stored title is non-empty and differs from the current tab title and
the tracked folder id has vanished from Drive, the rename block still
completes (the failure is swallowed, not fatal): the folder-rename
attempt is recorded, Drive's folder table is untouched, the stored
title is overwritten with the current title regardless of the failure,
and the updated entry is written back.  Consequently the rename is NOT
re-attempted on the next run: on any later state, the rename block is
the identity on the persisted entry. -/
theorem claim_C6 (rs : RS) (tabId tabTitle fd : String) (e : TrackedEntry)
    (hc : e.title ≠ "" ∧ e.title ≠ tabTitle)
    (hfd : e.folderId = some fd)
    (hgone : lookupKey rs.drive.folders fd = none) :
    (renameStep rs tabId tabTitle e).2.2 = true ∧
    Op.renameFolderOp fd tabTitle ∈ (renameStep rs tabId tabTitle e).1.ops ∧
    (renameStep rs tabId tabTitle e).1.drive.folders = rs.drive.folders ∧
    (renameStep rs tabId tabTitle e).2.1.title = tabTitle ∧
    lookupKey (renameStep rs tabId tabTitle e).1.st tabId =
      some (renameStep rs tabId tabTitle e).2.1 ∧
    ∀ rs' : RS,
      renameStep rs' tabId tabTitle (renameStep rs tabId tabTitle e).2.1 =
        (rs', (renameStep rs tabId tabTitle e).2.1, false) := by
  have key : renameStep rs tabId tabTitle e =
      (putEntry (safeRenameFolder (match e.fileId with
          | some f => safeRenameFile rs f (tabTitle ++ ".pdf")
          | none => rs) fd tabTitle) tabId { e with title := tabTitle },
        { e with title := tabTitle }, true) := by
    unfold renameStep
    rw [if_pos hc, hfd]
  refine ⟨?_, ?_, ?_, ?_, ?_, ?_⟩
  · rw [key]
  · rw [key]
    simp [putEntry, safeRenameFolder]
  · rw [key]
    simp only [putEntry, safeRenameFolder]
    cases hf : e.fileId with
    | none =>
      rw [modFolder_noent _ _ _ hgone]
    | some f =>
      simp only [safeRenameFile]
      have h' : lookupKey (modFile rs.drive f
          (fun df => { df with name := tabTitle ++ ".pdf" })).folders fd =
          none := by
        rw [modFile_folders]
        exact hgone
      rw [modFolder_noent _ _ _ h', modFile_folders]
  · rw [key]
  · rw [key]
    simp only [putEntry]
    exact lookupKey_setKey_self _ _ _
  · intro rs'
    rw [key]
    exact renameStep_silent rs' tabId tabTitle _ (Or.inr rfl)

/-- Witness for C6 (amended) at the concrete vanished-folder input. -/
theorem claim_C6_witness :
    (renameStep renameWorld "x" "New"
      ⟨some "f", some "dGone", "Old", some "ROOT"⟩).2.2 = true ∧
    (renameStep renameWorld "x" "New"
      ⟨some "f", some "dGone", "Old", some "ROOT"⟩).1.drive.folders =
      renameWorld.drive.folders ∧
    (renameStep renameWorld "x" "New"
      ⟨some "f", some "dGone", "Old", some "ROOT"⟩).2.1.title = "New" := by
  have h := claim_C6 renameWorld "x" "New" "dGone"
    ⟨some "f", some "dGone", "Old", some "ROOT"⟩
    ⟨by decide, by decide⟩ rfl rfl
  exact ⟨h.1, h.2.2.1, h.2.2.2.1⟩

/-- C7 as stated is false on the code: against a renderer that always
answers a non-200, non-429 status (here 500), the gateway does retry
until the budget is exhausted and returns null, but with NO backoff
sleeps at all — not the "same bounded-retry-then-give-up policy ...
with exponentially growing backoff delays" as for rate limits. -/
theorem claim_C7_counterexample :
    (exportTabToPDF (fun _ _ => .status 500) "x" "T" "root"
      ⟨[], [], 0⟩).file = none ∧
    fetchCount (exportTabToPDF (fun _ _ => .status 500) "x" "T" "root"
      ⟨[], [], 0⟩).ops = MAX_RETRIES + 1 ∧
    sleepTimes (exportTabToPDF (fun _ _ => .status 500) "x" "T" "root"
      ⟨[], [], 0⟩).ops = [] :=
  ⟨rfl, rfl, rfl⟩

/-- C7 (amended).  Non-rate-limit transport failures share only the
bounded-retry-then-give-up part of the policy, not its backoff: a
renderer that always answers a non-200, non-429 status is fetched
`MAX_RETRIES + 1` times and then null is returned with NO sleeps in
between, while a renderer whose fetches always throw is fetched
`MAX_RETRIES + 1` times and then null is returned with exponential
backoff sleeps after every attempt but the last. -/
theorem claim_C7 (renderer : String → Nat → FetchResp)
    (tabId tabTitle folderId : String) (drive : Drive) :
    ((∀ n, ∃ c, renderer tabId n = .status c ∧ c ≠ 200 ∧ c ≠ 429) →
      (exportTabToPDF renderer tabId tabTitle folderId drive).file =
        none ∧
      fetchCount (exportTabToPDF renderer tabId tabTitle folderId
        drive).ops = MAX_RETRIES + 1 ∧
      sleepTimes (exportTabToPDF renderer tabId tabTitle folderId
        drive).ops = []) ∧
    ((∀ n, renderer tabId n = .thrown) →
      (exportTabToPDF renderer tabId tabTitle folderId drive).file =
        none ∧
      fetchCount (exportTabToPDF renderer tabId tabTitle folderId
        drive).ops = MAX_RETRIES + 1 ∧
      sleepTimes (exportTabToPDF renderer tabId tabTitle folderId
        drive).ops = (List.range MAX_RETRIES).map
          (fun i => INITIAL_BACKOFF * 2 ^ i)) := by
  constructor
  · intro h
    unfold exportTabToPDF
    rw [exportLoop_other (renderer tabId) tabId (tabTitle ++ ".pdf")
      folderId drive h (MAX_RETRIES + 1) 0]
    refine ⟨rfl, ?_, ?_⟩
    · simp [MAX_RETRIES, fetchCount, List.replicate, List.countP_cons]
    · simp [MAX_RETRIES, sleepTimes, List.replicate, List.filterMap_cons]
  · intro h
    unfold exportTabToPDF
    rw [exportLoop_thrown (renderer tabId) tabId (tabTitle ++ ".pdf")
      folderId drive h (MAX_RETRIES + 1) 0]
    refine ⟨rfl, ?_, ?_⟩
    · simp [MAX_RETRIES, throwOps, fetchCount]
    · simp [MAX_RETRIES, throwOps, sleepTimes, INITIAL_BACKOFF]
      decide

/-- Witness for C7 (amended) at concrete inputs: an always-503 renderer
and an always-throwing renderer. -/
theorem claim_C7_witness :
    sleepTimes (exportTabToPDF (fun _ _ => .status 503) "x" "T" "root"
      ⟨[], [], 0⟩).ops = [] ∧
    fetchCount (exportTabToPDF (fun _ _ => .thrown) "x" "T" "root"
      ⟨[], [], 0⟩).ops = MAX_RETRIES + 1 ∧
    sleepTimes (exportTabToPDF (fun _ _ => .thrown) "x" "T" "root"
      ⟨[], [], 0⟩).ops = [1500, 3000, 6000] := by
  have h1 := (claim_C7 (fun _ _ => .status 503) "x" "T" "root"
    ⟨[], [], 0⟩).1 (fun n => ⟨503, rfl, by decide, by decide⟩)
  have h2 := (claim_C7 (fun _ _ => .thrown) "x" "T" "root"
    ⟨[], [], 0⟩).2 (fun n => rfl)
  refine ⟨h1.2.2, h2.2.1, ?_⟩
  rw [h2.2.2]
  decide

theorem nodeCore_move (renderer : String → Nat → FetchResp)
    (tabId tabTitle hv cur pf : String) (e0 : TrackedEntry) (rs2 : RS)
    (f : String)
    (htitle : e0.title = "" ∨ e0.title = tabTitle)
    (hne : e0.parentName ≠ some cur)
    (hfid : e0.fileId = some f)
    (hlive : (lookupKey rs2.drive.files f).isSome = true)
    (hhash : lookupKey rs2.props.hashes tabId = some hv) :
    nodeCore renderer tabId tabTitle hv cur pf e0 rs2 =
      (saveStateNow (putEntry (moveItemFile rs2 f pf) tabId
          { e0 with parentName := some cur }),
        { e0 with parentName := some cur }, e0.parentName, 0) := by
  have hbeq : (e0.parentName == some cur) = false :=
    beq_eq_false_iff_ne.mpr hne
  unfold nodeCore
  dsimp only
  rw [renameStep_silent rs2 tabId tabTitle e0 htitle]
  dsimp only
  rw [hhash, selfHealStep_live rs2 tabId e0 f hfid hlive]
  dsimp only
  rw [hfid, hbeq]
  simp only [beq_self_eq_true, Bool.not_true, Bool.not_false,
    Option.isSome_some, Bool.true_and, Bool.and_true]
  rw [exportStep_move renderer tabId tabTitle pf cur hv false true true
    e0 rs2 f rfl rfl hfid hlive]
  simp [hfid]

theorem ensureChildFolder_move (e : TrackedEntry)
    (savedParentName : Option String)
    (currentParentName tabTitle tabId parentFolderId : String) (rs : RS)
    (fd : String) (hfd : e.folderId = some fd)
    (hex : (lookupKey rs.drive.folders fd).isSome = true)
    (hne : savedParentName ≠ some currentParentName) :
    ensureChildFolder e savedParentName currentParentName tabTitle tabId
      parentFolderId rs = (moveItemFolder rs fd parentFolderId, fd) := by
  have hbeq : (savedParentName == some currentParentName) = false :=
    beq_eq_false_iff_ne.mpr hne
  unfold ensureChildFolder
  rw [hfd]
  dsimp only
  rw [if_pos hex, hbeq]
  simp

/-- C8.  Relocation detection is keyed by the parent TITLE, not the
parent identity: both the per-node structure check and the children
section's `folderNeedsMove` compare only the current logical parent
name `curName path` (a title string) against the stored `parentName`,
never the destination folder id `pf`.  For a node with unchanged
content, synced title, a live tracked artifact and a live tracked
folder: if the stored parent name equals the current parent title,
the per-node pipeline is the identity, the children section reuses
the tracked folder without any move on any state whose Drive still
resolves it, and the whole `processTabHierarchy` call reduces to the
recursion into the children under the OLD folder — no move, no op,
Drive untouched, so artifact and folder stay wherever they physically
are, for EVERY destination folder id `pf`.  If the stored parent name
differs from the current parent title, the artifact and the tracked
folder are each re-placed under `pf`. -/
theorem claim_C8 (renderer : String → Nat → FetchResp) (t : Tab)
    (pf : String) (path : List String) (rs : RS) (e : TrackedEntry)
    (f fd : String)
    (hentry : lookupKey rs.st t.id = some e)
    (htitle : e.title = "" ∨ e.title = t.title)
    (hfid : e.fileId = some f)
    (hlive : (lookupKey rs.drive.files f).isSome = true)
    (hhash : lookupKey rs.props.hashes t.id = some (getTabContentHash t))
    (hfd : e.folderId = some fd)
    (hfdlive : (lookupKey rs.drive.folders fd).isSome = true) :
    (e.parentName = some (curName path) →
      preChildren renderer t pf path rs =
        ({ rs with active := rs.active ++ [t.id] }, e, e.parentName, 0) ∧
      (∀ rs' : RS, (lookupKey rs'.drive.folders fd).isSome = true →
        ensureChildFolder e e.parentName (curName path) t.title t.id pf
          rs' = (rs', fd)) ∧
      (t.children ≠ [] →
        processTab renderer t pf path rs =
          ((processForest renderer t.children fd (path ++ [t.title])
              { rs with active := rs.active ++ [t.id] }).1,
            (processForest renderer t.children fd (path ++ [t.title])
              { rs with active := rs.active ++ [t.id] }).2))) ∧
    (e.parentName ≠ some (curName path) →
      preChildren renderer t pf path rs =
        (saveStateNow (putEntry (moveItemFile
            { rs with active := rs.active ++ [t.id] } f pf) t.id
            { e with parentName := some (curName path) }),
          { e with parentName := some (curName path) }, e.parentName, 0) ∧
      (∀ rs' : RS, (lookupKey rs'.drive.folders fd).isSome = true →
        ensureChildFolder { e with parentName := some (curName path) }
          e.parentName (curName path) t.title t.id pf rs' =
          (moveItemFolder rs' fd pf, fd))) := by
  constructor
  · intro hpar
    have hpre := preChildren_silent renderer t pf path rs e f hentry
      htitle hpar hfid hlive hhash
    refine ⟨hpre, ?_, ?_⟩
    · intro rs' hex'
      exact ensureChildFolder_silent e e.parentName (curName path) t.title
        t.id pf rs' fd hfd hex' hpar
    · intro hch
      have hemp : ¬ (t.children.isEmpty = true) :=
        fun hh => hch (List.isEmpty_iff.mp hh)
      rw [processTab]
      dsimp only
      rw [hpre]
      dsimp only
      rw [if_neg hemp]
      rw [ensureChildFolder_silent e e.parentName (curName path) t.title
        t.id pf { rs with active := rs.active ++ [t.id] } fd hfd hfdlive
        hpar]
      simp
  · intro hne
    constructor
    · rw [(preChildren_cases renderer t pf path rs).1 e hentry]
      exact nodeCore_move renderer t.id t.title (getTabContentHash t)
        (curName path) pf e { rs with active := rs.active ++ [t.id] } f
        htitle hne hfid hlive hhash
    · intro rs' hex'
      exact ensureChildFolder_move
        { e with parentName := some (curName path) } e.parentName
        (curName path) t.title t.id pf rs' fd hfd hex' hne

/-- Witness for C8 at the concrete same-title input: the artifact `f`
and tracked folder `d` of node `n` physically live under `elsewhere`,
the current destination parent id is the unrelated `pfNew`, but the
stored parent name `P` equals the current parent title `P`, so the
per-node pipeline is the identity, the children section returns the
old folder `d` without moving it, and the whole `processTab` call
(whose only child is not of the recognized type) changes nothing but
the active set. -/
theorem claim_C8_witness :
    preChildren rendererOK sameTitleTab "pfNew" ["P"] sameTitleWorld =
      ({ sameTitleWorld with active := ["n"] },
        ⟨some "f", some "d", "N", some "P"⟩, some "P", 0) ∧
    ensureChildFolder ⟨some "f", some "d", "N", some "P"⟩ (some "P") "P"
      "N" "n" "pfNew" sameTitleWorld = (sameTitleWorld, "d") ∧
    processTab rendererOK sameTitleTab "pfNew" ["P"] sameTitleWorld =
      ({ sameTitleWorld with active := ["n"] }, 0) := by
  have h := claim_C8 rendererOK sameTitleTab "pfNew" ["P"] sameTitleWorld
    ⟨some "f", some "d", "N", some "P"⟩ "f" "d" rfl (Or.inr rfl) rfl rfl
    rfl rfl rfl
  obtain ⟨hpre, hfold, hcomp⟩ := h.1 rfl
  have hch : sameTitleTab.children ≠ [] := by
    simp [sameTitleTab, Tab.children]
  have hnd : ∀ c ∈ sameTitleTab.children, c.docType = false := by
    intro c hc
    simp [sameTitleTab, Tab.children] at hc
    subst hc
    rfl
  refine ⟨?_, hfold sameTitleWorld rfl, ?_⟩
  · rw [hpre]
    rfl
  · rw [hcomp hch]
    rw [processForest_nondoc rendererOK sameTitleTab.children
      "d" (["P"] ++ [sameTitleTab.title]) _ hnd]
    rfl

/-- C9.  Visited nodes are never reaped in the same run: the traversal
appends every visited id to the active set, keeps a state entry for
every visited id regardless of the renderer's answers (so even when
every export fails) and regardless of Drive content (so even when
renames and moves fail); the reaper then leaves every visited id's
entry and fingerprint untouched, and every trash it emits is
attributable to a state entry at a non-active key — so an artifact or
folder tracked only by a visited node is never trashed by that run's
reaper. -/
theorem claim_C9 (renderer : String → Nat → FetchResp) (ts : List Tab)
    (pf : String) (path : List String) (rs : RS) :
    (processForest renderer ts pf path rs).1.active =
      rs.active ++ visitedForest ts ∧
    (∀ k, k ∈ visitedForest ts →
      (lookupKey (processForest renderer ts pf path rs).1.st k).isSome) ∧
    (∀ k, k ∈ visitedForest ts →
      lookupKey (cleanupOrphans
          (processForest renderer ts pf path rs).1).st k =
        lookupKey (processForest renderer ts pf path rs).1.st k ∧
      lookupKey (cleanupOrphans
          (processForest renderer ts pf path rs).1).props.hashes k =
        lookupKey (processForest renderer ts pf path rs).1.props.hashes k) ∧
    ∃ new,
      (cleanupOrphans (processForest renderer ts pf path rs).1).ops =
        (processForest renderer ts pf path rs).1.ops ++ new ∧
      (∀ op ∈ new,
        orphanTrash (processForest renderer ts pf path rs).1.st
          (processForest renderer ts pf path rs).1.active op) ∧
      (∀ k g, k ∈ visitedForest ts →
        (∀ j e, lookupKey (processForest renderer ts pf path rs).1.st j =
          some e → e.fileId = some g ∨ e.folderId = some g → j = k) →
        Op.trashFile g ∉ new ∧ Op.trashFolder g ∉ new) := by
  obtain ⟨frame, hact⟩ := processForest_frame renderer ts pf path rs
  obtain ⟨keep, vis⟩ := processForest_keys renderer ts pf path rs
  refine ⟨hact, vis, ?_, ?_⟩
  · intro k hk
    exact cleanupOrphans_preserve _ k
      (by rw [hact]; exact List.mem_append_right _ hk)
  · obtain ⟨new, hops, hattr⟩ :=
      cleanupOrphans_ops (processForest renderer ts pf path rs).1
    refine ⟨new, hops, hattr, ?_⟩
    intro k g hk huniq
    constructor
    · intro hmem
      have h := hattr _ hmem
      simp only [orphanTrash] at h
      obtain ⟨j, e, hj, hjact, hjf⟩ := h
      have hjk : j = k := huniq j e hj (Or.inl hjf)
      subst hjk
      exact hjact (by rw [hact]; exact List.mem_append_right _ hk)
    · intro hmem
      have h := hattr _ hmem
      simp only [orphanTrash] at h
      obtain ⟨j, e, hj, hjact, hjf⟩ := h
      have hjk : j = k := huniq j e hj (Or.inr hjf)
      subst hjk
      exact hjact (by rw [hact]; exact List.mem_append_right _ hk)

/-- Witness for C9 at a concrete input: a single visited node whose
every export attempt throws — it is still in the active set and its
entry survives the reaper. -/
theorem claim_C9_witness :
    (processForest (fun _ _ => .thrown) [Tab.mk "a" "A" "x" true []]
      "root" [] ⟨[], [], ⟨[], [], 0⟩, ⟨none, none, [], none⟩,
        []⟩).1.active =
      [] ++ visitedForest [Tab.mk "a" "A" "x" true []] ∧
    (lookupKey (cleanupOrphans (processForest (fun _ _ => .thrown)
      [Tab.mk "a" "A" "x" true []] "root" []
      ⟨[], [], ⟨[], [], 0⟩, ⟨none, none, [], none⟩, []⟩).1).st "a").isSome := by
  have hmem : "a" ∈ visitedForest [Tab.mk "a" "A" "x" true []] := by
    rw [visitedForest, visitedTab_def]
    exact List.mem_append_left _ (List.mem_cons_self _ _)
  have h := claim_C9 (fun _ _ => .thrown) [Tab.mk "a" "A" "x" true []]
    "root" [] ⟨[], [], ⟨[], [], 0⟩, ⟨none, none, [], none⟩, []⟩
  refine ⟨h.1, ?_⟩
  rw [(h.2.2.1 "a" hmem).1]
  exact h.2.1 "a" hmem

end GDocTabs
